import Mathlib

/-!
Verification of the bonus-engine core of the Between-The-Lines repository.

The definitions below are a shallow embedding of
`src/app/src/lib/bonusEngine.js` (bonus normalization, benefit handlers,
modifier-reference resolution, bonus collection, stat derivation) and of the
override layer of `src/app/src/pages/CharacterSheet.jsx`
(`getFinalAbilityScore`, `calculateModifier`).

Modelling conventions:
- JS numbers that the engine manipulates are modelled as `Int` (all engine
  arithmetic is integer arithmetic; `Math.floor(x / 2)` becomes `Int.fdiv x 2`).
- JS objects used as string-keyed maps become association lists
  `List (String × α)`; property read is first-match lookup, property write
  updates the first matching entry in place or appends (JS insertion order).
- `undefined` / absent fields become `Option`; the JS falsy-or idiom `x || d`
  on a number-or-undefined `x` becomes `jsOrNum`, and on a
  string-or-undefined `x` becomes `jsOrStr` (`0`, `""` and `undefined` all
  select the default, matching JS truthiness).
- `String.prototype.startsWith`, prefix removal via
  `String.prototype.replace(p, '')` for a string known to start with `p`, and
  `String.prototype.toLowerCase` are modelled by `strStartsWith`, `strDrop`
  and `strToLower` on the character list of the string.
-/

/-! ## Generic string and association-list helpers -/

/-- Character-list version of `String.prototype.startsWith`: does the second
list begin with the first? -/
def isStart : List Char → List Char → Bool
  | [], _ => true
  | _ :: _, [] => false
  | c :: cs, d :: ds => decide (c = d) && isStart cs ds

/-- JS `s.startsWith(p)`. -/
def strStartsWith (s p : String) : Bool := isStart p.data s.data

/-- Dropping the first `n` characters of a string; models
`s.replace(p, '')` when `s` is known to start with `p` and `n = p.length`
(JS `replace` removes only the first occurrence, which is then the prefix). -/
def strDrop (s : String) (n : Nat) : String := String.mk (s.data.drop n)

/-- JS `s.toLowerCase()` (the engine only ever lower-cases ASCII names). -/
def strToLower (s : String) : String := String.mk (s.data.map Char.toLower)

/-- Property read on a JS object modelled as an association list. -/
def alookup {α : Type} : List (String × α) → String → Option α
  | [], _ => none
  | (k', v) :: r, k => if k' = k then some v else alookup r k

/-- Property read with a default value. -/
def alookupD {α : Type} (m : List (String × α)) (k : String) (d : α) : α :=
  (alookup m k).getD d

/-- Property write on a JS object modelled as an association list: update the
first matching key in place, or append a new entry (JS insertion order). -/
def aset {α : Type} : List (String × α) → String → α → List (String × α)
  | [], k, v => [(k, v)]
  | (k', v') :: r, k, v => if k' = k then (k', v) :: r else (k', v') :: aset r k v

/-- JS `x || d` for a number-valued (or absent) property `x`: `undefined` and
`0` are falsy and select the default. -/
def jsOrNum (o : Option Int) (d : Int) : Int :=
  match o with
  | none => d
  | some v => if v = 0 then d else v

/-- JS `x || d` for a string-valued (or absent) property `x`: `undefined` and
`""` are falsy and select the default. -/
def jsOrStr (o : Option String) (d : String) : String :=
  match o with
  | none => d
  | some s => if s = "" then d else s

/-! ## Data model (`bonusEngine.js`) -/

/-- Provenance record attached to a bonus (`{type, id, label}` in the source;
every field can be absent on a raw `bonus.source`). -/
structure SourceRec where
  stype : Option String
  id : Option String
  label : Option String
deriving DecidableEq

/-- Canonical normalized bonus: `{target, value, type, source}`. -/
structure Bonus where
  target : String
  value : Int
  type : String
  source : SourceRec
deriving DecidableEq

/-- Base sense entry `{sense_type, range}`. -/
structure Sense where
  sense_type : String
  range : Int
deriving DecidableEq

/-- Map with one value per recognized ability, mirroring the fixed-key objects
built by `emptyAbilityMap` / `emptySourceMap` (`abilityOrder` in the source). -/
structure AbilityMapG (α : Type) where
  strength : α
  dexterity : α
  constitution : α
  intelligence : α
  wisdom : α
  charisma : α
deriving DecidableEq

/-- Membership test `ability in totals.abilities` for the fixed-key ability
object: exactly the six recognized ability names. -/
def abMem (a : String) : Bool :=
  decide (a = "strength") || decide (a = "dexterity") || decide (a = "constitution") ||
    decide (a = "intelligence") || decide (a = "wisdom") || decide (a = "charisma")

/-- Update the entry of one recognized ability (no-op on other names). -/
def abUpd {α : Type} (m : AbilityMapG α) (a : String) (f : α → α) : AbilityMapG α :=
  if a = "strength" then { m with strength := f m.strength }
  else if a = "dexterity" then { m with dexterity := f m.dexterity }
  else if a = "constitution" then { m with constitution := f m.constitution }
  else if a = "intelligence" then { m with intelligence := f m.intelligence }
  else if a = "wisdom" then { m with wisdom := f m.wisdom }
  else if a = "charisma" then { m with charisma := f m.charisma }
  else m

/-- `emptyAbilityMap()`. -/
def abZero : AbilityMapG Int :=
  { strength := 0, dexterity := 0, constitution := 0,
    intelligence := 0, wisdom := 0, charisma := 0 }

/-- `emptySourceMap()`. -/
def abNil : AbilityMapG (List Bonus) :=
  { strength := [], dexterity := [], constitution := [],
    intelligence := [], wisdom := [], charisma := [] }

/-- `abilityModifier(score) = Math.floor((score - 10) / 2)`. -/
def abilityModifier (score : Int) : Int := Int.fdiv (score - 10) 2

/-- Base attribute snapshot consumed by `deriveCharacterStats` (the `base`
argument): six ability scores, `maxHP`, `proficiency`, `acBase`,
`initiativeBase`, `passivePerceptionBase`, `senses`, `speeds`. -/
structure Base where
  abilities : AbilityMapG Int
  maxHP : Int
  proficiency : Int
  acBase : Int
  initiativeBase : Int
  passivePerceptionBase : Int
  senses : List Sense
  speeds : List (String × Int)
deriving DecidableEq

/-- The `totals` accumulator of `deriveCharacterStats`. -/
structure Totals where
  abilities : AbilityMapG Int
  maxHP : Int
  ac : Int
  initiative : Int
  passivePerception : Int
  skills : List (String × Int)
  saves : List (String × Int)
  speeds : List (String × Int)
  senses : List (String × Int)
deriving DecidableEq

/-- The `sources` accumulator of `deriveCharacterStats`. -/
structure Sources where
  abilities : AbilityMapG (List Bonus)
  maxHP : List Bonus
  ac : List Bonus
  initiative : List Bonus
  passivePerception : List Bonus
  skills : List (String × List Bonus)
  saves : List (String × List Bonus)
  speeds : List (String × List Bonus)
  senses : List (String × List Bonus)
deriving DecidableEq

/-- Joint routing state (`totals` and `sources` are filled in one pass). -/
structure DState where
  totals : Totals
  sources : Sources
deriving DecidableEq

/-- Initial accumulators of `deriveCharacterStats`. -/
def initState : DState :=
  { totals := { abilities := abZero, maxHP := 0, ac := 0, initiative := 0,
                passivePerception := 0, skills := [], saves := [], speeds := [],
                senses := [] },
    sources := { abilities := abNil, maxHP := [], ac := [], initiative := [],
                 passivePerception := [], skills := [], saves := [], speeds := [],
                 senses := [] } }

/-- `totals.skills[k] = (totals.skills[k] || 0) + v` (for integer totals,
`x || 0` equals `x`, since `0 || 0` is `0`). -/
def updAdd (m : List (String × Int)) (k : String) (v : Int) : List (String × Int) :=
  aset m k (alookupD m k 0 + v)

/-- `totals.senses[k] = Math.max(totals.senses[k] || 0, v)` (again `x || 0 = x`
on integers). -/
def updMax (m : List (String × Int)) (k : String) (v : Int) : List (String × Int) :=
  aset m k (max (alookupD m k 0) v)

/-- `sources.<bucket>[k] = [...(sources.<bucket>[k] || []), bonus]`. -/
def updPush (m : List (String × List Bonus)) (k : String) (b : Bonus) :
    List (String × List Bonus) :=
  aset m k (alookupD m k [] ++ [b])

/-- One iteration of the `bonuses.forEach` routing chain inside
`deriveCharacterStats`, in the exact source branch order: `ability.` prefix,
`maxHP`, `ac`, `initiative`, `passivePerception`, `skill.` prefix, `save.`
prefix, `speed.` prefix (lower-cased, empty dropped), `sense.` prefix
(lower-cased, empty dropped, max-merged); anything else falls through. -/
def routeStep (st : DState) (b : Bonus) : DState :=
  if strStartsWith b.target ("ability.") then
    let a := strDrop b.target 8
    if abMem a then
      { st with
        totals := { st.totals with abilities := abUpd st.totals.abilities a (· + b.value) },
        sources := { st.sources with abilities := abUpd st.sources.abilities a (· ++ [b]) } }
    else st
  else if b.target = ("maxHP") then
    { st with
      totals := { st.totals with maxHP := st.totals.maxHP + b.value },
      sources := { st.sources with maxHP := st.sources.maxHP ++ [b] } }
  else if b.target = ("ac") then
    { st with
      totals := { st.totals with ac := st.totals.ac + b.value },
      sources := { st.sources with ac := st.sources.ac ++ [b] } }
  else if b.target = ("initiative") then
    { st with
      totals := { st.totals with initiative := st.totals.initiative + b.value },
      sources := { st.sources with initiative := st.sources.initiative ++ [b] } }
  else if b.target = ("passivePerception") then
    { st with
      totals := { st.totals with passivePerception := st.totals.passivePerception + b.value },
      sources := { st.sources with passivePerception := st.sources.passivePerception ++ [b] } }
  else if strStartsWith b.target ("skill.") then
    let sk := strDrop b.target 6
    { st with
      totals := { st.totals with skills := updAdd st.totals.skills sk b.value },
      sources := { st.sources with skills := updPush st.sources.skills sk b } }
  else if strStartsWith b.target ("save.") then
    let sv := strDrop b.target 5
    { st with
      totals := { st.totals with saves := updAdd st.totals.saves sv b.value },
      sources := { st.sources with saves := updPush st.sources.saves sv b } }
  else if strStartsWith b.target ("speed.") then
    let ty := strToLower (strDrop b.target 6)
    if ty = "" then st
    else
      { st with
        totals := { st.totals with speeds := updAdd st.totals.speeds ty b.value },
        sources := { st.sources with speeds := updPush st.sources.speeds ty b } }
  else if strStartsWith b.target ("sense.") then
    let ty := strToLower (strDrop b.target 6)
    if ty = "" then st
    else
      { st with
        totals := { st.totals with senses := updMax st.totals.senses ty b.value },
        sources := { st.sources with senses := updPush st.sources.senses ty b } }
  else st

/-- `toSenseMap(senses)`: reduce the base sense list to a type → range map,
skipping entries with a falsy `sense_type` and collapsing duplicates via max. -/
def toSenseMap (l : List Sense) : List (String × Int) :=
  l.foldl (fun acc s => if s.sense_type = "" then acc else updMax acc s.sense_type s.range) []

/-- The `mergedSenses` object spread: base map, overridden (in totals key
order) by `max(baseSensesMap[key] || 0, totals.senses[key])`. -/
def mergeSenses (bm ts : List (String × Int)) : List (String × Int) :=
  ts.foldl (fun acc kv => aset acc kv.1 (max (alookupD bm kv.1 0) kv.2)) bm

/-- The fully derived attribute snapshot (`derived` in the output). -/
structure Derived where
  abilities : AbilityMapG Int
  modifiers : AbilityMapG Int
  maxHP : Int
  proficiency : Int
  ac : Int
  initiative : Int
  passivePerception : Int
  senses : List Sense
  speeds : List (String × Int)
deriving DecidableEq

/-- Output of one derivation pass: `{derived, totals, sources}`. -/
structure DeriveResult where
  derived : Derived
  totals : Totals
  sources : Sources
deriving DecidableEq

/-- `deriveCharacterStats({base, bonuses})` over canonical bonuses: route every
bonus into its bucket, then assemble derived values (abilities and modifiers,
flat stats, max-merged senses filtered to positive ranges, additive speeds). -/
def deriveCharacterStats (base : Base) (bonuses : List Bonus) : DeriveResult :=
  let st := bonuses.foldl routeStep initState
  let dAb : AbilityMapG Int :=
    { strength := base.abilities.strength + st.totals.abilities.strength,
      dexterity := base.abilities.dexterity + st.totals.abilities.dexterity,
      constitution := base.abilities.constitution + st.totals.abilities.constitution,
      intelligence := base.abilities.intelligence + st.totals.abilities.intelligence,
      wisdom := base.abilities.wisdom + st.totals.abilities.wisdom,
      charisma := base.abilities.charisma + st.totals.abilities.charisma }
  let dMods : AbilityMapG Int :=
    { strength := abilityModifier dAb.strength,
      dexterity := abilityModifier dAb.dexterity,
      constitution := abilityModifier dAb.constitution,
      intelligence := abilityModifier dAb.intelligence,
      wisdom := abilityModifier dAb.wisdom,
      charisma := abilityModifier dAb.charisma }
  let bm := toSenseMap base.senses
  let merged := mergeSenses bm st.totals.senses
  let dSenses := (merged.filter (fun kv => decide (0 < kv.2))).map
    (fun kv => { sense_type := kv.1, range := kv.2 : Sense })
  let dSpeeds := st.totals.speeds.foldl
    (fun acc kv => aset acc kv.1 (alookupD acc kv.1 0 + kv.2)) base.speeds
  { derived :=
      { abilities := dAb,
        modifiers := dMods,
        maxHP := base.maxHP + st.totals.maxHP,
        proficiency := base.proficiency,
        ac := base.acBase + st.totals.ac,
        initiative := base.initiativeBase + st.totals.initiative,
        passivePerception := base.passivePerceptionBase + st.totals.passivePerception,
        senses := dSenses,
        speeds := dSpeeds },
    totals := st.totals,
    sources := st.sources }

/-! ## Bonus normalization (`normalizeBonus`) -/

/-- Category of a raw JS property value as far as `normalizeBonus`'s
`typeof` checks can tell it apart. -/
inductive FieldVal where
  | missing
  | str (s : String)
  | num (n : Int)
  | other
deriving DecidableEq

/-- A raw candidate bonus value handed to `normalizeBonus`: either a truthy
non-object (rejected by the `typeof bonus !== 'object'` test) or an object
with `target`, `value`, `type`, `source` properties. A JS `null`/`undefined`/
falsy argument is modelled as `Option.none` around this type. -/
inductive RawVal where
  | nonObject
  | obj (target : FieldVal) (value : FieldVal) (btype : Option String)
      (bsource : Option SourceRec)
deriving DecidableEq

/-- `normalizeBonus(bonus, source)`: `null` for non-objects, a missing string
`target` or a missing numeric `value`; otherwise copies `target`/`value`
verbatim, defaults `type` to `"untyped"` (`bonus.type || 'untyped'`) and
resolves `source` as `source || bonus.source || {label: 'Unknown'}`. -/
def normalizeBonus (bonus : Option RawVal) (source : Option SourceRec) : Option Bonus :=
  match bonus with
  | none => none
  | some RawVal.nonObject => none
  | some (RawVal.obj t v bt bs) =>
    match t with
    | FieldVal.str tgt =>
      match v with
      | FieldVal.num value =>
        some { target := tgt, value := value, type := jsOrStr bt ("untyped"),
               source := match source with
                 | some s => s
                 | none => match bs with
                   | some s => s
                   | none => { stype := none, id := none, label := some ("Unknown") } }
      | _ => none
    | _ => none

/-! ## Modifier-reference resolution (`resolveModifierValue`) -/

/-- JS word character (`\w` = `[A-Za-z0-9_]`). -/
def isWordChar (c : Char) : Bool := c.isAlphanum || decide (c = '_')

/-- Match the tail of the pattern `_modifier(?:_(\w+))?$` against the rest of
the string (all characters already known to be word characters): the rest must
be exactly `_modifier`, or `_modifier_` followed by a non-empty suffix. -/
def modTail (r : List Char) : Option (Option String) :=
  if r = ("_modifier").data then some none
  else if isStart ("_modifier").data r then
    match r.drop 9 with
    | [] => none
    | c :: w => if decide (c = '_') && decide (w ≠ []) then some (some (String.mk w)) else none
  else none

/-- Greedy backtracking split for `/^(\w+)_modifier(?:_(\w+))?$/`: the capture
is the longest non-empty prefix whose remainder matches `modTail`. -/
def regexSplit (cs : List Char) : Option (String × Option String) :=
  ((List.range cs.length).reverse).findSome? (fun i =>
    if decide (0 < i) then
      match modTail (cs.drop i) with
      | some suf => some (String.mk (cs.take i), suf)
      | none => none
    else none)

/-- `modifierString.match(/^(\w+)_modifier(?:_(\w+))?$/)`, returning the two
capture groups; `none` when the string does not match (in particular whenever
it contains a non-word character). -/
def jsMatchModifier (s : String) : Option (String × Option String) :=
  if s.data.all isWordChar then regexSplit s.data else none

/-- `resolveModifierValue(modifierString, baseCharacterData)`: `0` for a falsy
string, `baseCharacterData.proficiency || 2` for the literal
`proficiency_bonus`, otherwise the regex path — ability score looked up with
default 10 (`baseCharacterData[ability] || 10`), modifier
`floor((score - 10) / 2)`, doubled for suffix `doubled`, floor-halved for
suffix `halved`; non-matching strings resolve to `0`. -/
def resolveModifierValue (ms : String) (base : List (String × Int)) : Int :=
  if ms = "" then 0
  else if ms = ("proficiency_bonus") then jsOrNum (alookup base ("proficiency")) 2
  else
    match jsMatchModifier ms with
    | some (ability, suffix) =>
      let score := jsOrNum (alookup base ability) 10
      let v := abilityModifier score
      if suffix = some ("doubled") then v * 2
      else if suffix = some ("halved") then Int.fdiv v 2
      else v
    | none => 0

/-! ## Benefit handlers and collection (`benefitHandlers`, `collectBonuses`) -/

/-- Structured benefit descriptor with the fields the built-in handlers read;
`unknownType` stands for any type outside the registry (handler lookup fails,
a diagnostic is emitted and no bonus is produced). Optional list fields model
the `Array.isArray` guards; `bonus_source` is checked for truthiness. -/
inductive Benefit where
  | skill_modifier_bonus (skills : Option (List String)) (bonus_source : Option String)
  | ability_modifier_bonus (abilities : Option (List String)) (bonus_source : Option String)
  | save_modifier_bonus (saves : Option (List String)) (bonus_source : Option String)
  | skill_proficiency
  | skill_dual_ability
  | skill_half_proficiency
  | ac_bonus (value : Option Int) (bonus_type : Option String)
  | unknownType (t : String)
deriving DecidableEq

/-- Truthiness of `benefit.bonus_source` (absent or empty string is falsy). -/
def truthyStr (o : Option String) : Bool :=
  match o with
  | none => false
  | some s => decide (s ≠ "")

/-- `convertBenefitToBonus(benefit, baseCharacterData, source)` composed with
the handler registry: each fan-out handler suppresses a resolved value of `0`,
the inert handlers and unknown types return `[]`, and `ac_bonus` emits a
single `ac` bonus carrying `bonus_type || 'untyped'`. -/
def convertBenefitToBonus (benefit : Benefit) (base : List (String × Int))
    (source : SourceRec) : List Bonus :=
  match benefit with
  | Benefit.skill_modifier_bonus skills bs =>
    match skills with
    | none => []
    | some sl =>
      if truthyStr bs then
        let value := resolveModifierValue (bs.getD ("")) base
        if value = 0 then []
        else sl.map (fun sk =>
          { target := ("skill.") ++ sk, value := value, type := ("untyped"), source := source })
      else []
  | Benefit.ability_modifier_bonus abilities bs =>
    match abilities with
    | none => []
    | some al =>
      if truthyStr bs then
        let value := resolveModifierValue (bs.getD ("")) base
        if value = 0 then []
        else al.map (fun ab =>
          { target := ("ability.") ++ ab, value := value, type := ("untyped"), source := source })
      else []
  | Benefit.save_modifier_bonus saves bs =>
    match saves with
    | none => []
    | some sl =>
      if truthyStr bs then
        let value := resolveModifierValue (bs.getD ("")) base
        if value = 0 then []
        else sl.map (fun sv =>
          { target := ("save.") ++ sv, value := value, type := ("untyped"), source := source })
      else []
  | Benefit.skill_proficiency => []
  | Benefit.skill_dual_ability => []
  | Benefit.skill_half_proficiency => []
  | Benefit.ac_bonus v bt =>
    match v with
    | none => []
    | some n => [{ target := ("ac"), value := n, type := jsOrStr bt ("untyped"), source := source }]
  | Benefit.unknownType _ => []

/-- `processBenefits(benefits, baseCharacterData, source)`. -/
def processBenefits (benefits : List Benefit) (base : List (String × Int))
    (source : SourceRec) : List Bonus :=
  match benefits with
  | [] => []
  | b :: r => convertBenefitToBonus b base source ++ processBenefits r base source

/-- An item or feature record as `collectFromList` reads it: `id`, the
`name`/`label`/`title` chain, an optional legacy `bonuses` array (elements may
be null), an optional singular truthy `bonus`, and an optional `benefits`
array. -/
structure Entry where
  id : Option String
  name : Option String
  label : Option String
  title : Option String
  bonuses : Option (List (Option RawVal))
  bonus : Option RawVal
  benefits : Option (List Benefit)
deriving DecidableEq

/-- The source tag built for an entry:
`{type, id: entry.id, label: entry.name || entry.label || entry.title || 'Unknown'}`. -/
def entrySource (e : Entry) (stype : String) : SourceRec :=
  { stype := some stype, id := e.id,
    label := some (jsOrStr e.name (jsOrStr e.label (jsOrStr e.title ("Unknown")))) }

/-- Re-injection of a handler-produced bonus into `pushBonus` (handlers emit
plain objects that go through `normalizeBonus` again). -/
def bonusToRaw (b : Bonus) : RawVal :=
  RawVal.obj (FieldVal.str b.target) (FieldVal.num b.value) (some b.type) (some b.source)

/-- Bonuses pushed for one non-null entry: the legacy `bonuses` array (else the
singular `bonus`), then the expanded `benefits`, every one re-normalized with
the entry's source tag. -/
def entryBonuses (e : Entry) (stype : String) (base : List (String × Int)) : List Bonus :=
  let src := entrySource e stype
  (match e.bonuses with
   | some arr => arr.filterMap (fun ob => normalizeBonus ob (some src))
   | none =>
     match e.bonus with
     | some rb => (normalizeBonus (some rb) (some src)).toList
     | none => []) ++
  (match e.benefits with
   | some bl => (processBenefits bl base src).filterMap
       (fun bb => normalizeBonus (some (bonusToRaw bb)) (some src))
   | none => [])

/-- `collectFromList(list, sourceType)`: skip null entries, push each entry's
bonuses in order. -/
def collectFromList : List (Option Entry) → String → List (String × Int) → List Bonus
  | [], _, _ => []
  | none :: rest, stype, base => collectFromList rest stype base
  | some e :: rest, stype, base => entryBonuses e stype base ++ collectFromList rest stype base

/-- The fixed source tag for manual overrides. -/
def overrideSource : SourceRec :=
  { stype := some ("override"), id := none, label := some ("Override") }

/-- `collectBonuses({items, features, baseCharacterData, overrides})`: items,
then features, then overrides, each normalized (malformed entries dropped). -/
def collectBonuses (items features : List (Option Entry)) (base : List (String × Int))
    (overrides : List (Option RawVal)) : List Bonus :=
  collectFromList items ("item") base ++ collectFromList features ("feature") base ++
    overrides.filterMap (fun ob => normalizeBonus ob (some overrideSource))

/-! ## Derivation over raw bonus lists (exception behaviour) -/

/-- A raw element of the `bonuses` array as `deriveCharacterStats` actually
receives it: the `target` property may be absent (`undefined`), in which case
`bonus.target.startsWith(...)` raises a `TypeError`. A `null`/falsy element
(skipped by the `if (!bonus) return` guard) is `Option.none` around this. -/
structure RawDB where
  target : Option String
  value : Int
  rtype : String
  rsource : SourceRec
deriving DecidableEq

/-- Walk the raw bonus list in order: skip null entries, fail (the thrown
`TypeError`) at the first non-null entry without a string `target`, otherwise
keep the canonical bonus. -/
def checkTargets : List (Option RawDB) → Except Unit (List Bonus)
  | [] => Except.ok []
  | none :: r => checkTargets r
  | some b :: r =>
    match b.target with
    | none => Except.error ()
    | some t =>
      match checkTargets r with
      | Except.error e => Except.error e
      | Except.ok l =>
        Except.ok ({ target := t, value := b.value, type := b.rtype, source := b.rsource } :: l)

/-- `deriveCharacterStats` on a raw bonus list, with the JS exception made
explicit: `Except.error ()` models the `TypeError` escaping the call. -/
def deriveCharacterStatsChecked (base : Base) (raw : List (Option RawDB)) :
    Except Unit DeriveResult :=
  match checkTargets raw with
  | Except.error e => Except.error e
  | Except.ok l => Except.ok (deriveCharacterStats base l)

/-! ## Override layer (`CharacterSheet.jsx`) -/

/-- `calculateModifier(score) = Math.floor((score - 10) / 2)`. -/
def calculateModifier (score : Int) : Int := Int.fdiv (score - 10) 2

/-- A user-entered custom modifier `{source, value}`. -/
structure CustomModifier where
  source : String
  value : Int
deriving DecidableEq

/-- `getFinalAbilityScore(abilityKey, baseScore)`: the persisted override for
the key (already looked up; `null`/`undefined` is `none`) wins outright,
otherwise the computed score plus the sum of the custom modifier values. -/
def getFinalAbilityScore (override : Option Int) (customMods : List CustomModifier)
    (baseScore : Int) : Int :=
  match override with
  | some o => o
  | none => baseScore + (customMods.map (fun m => m.value)).sum

/-! ## Parsed view of the routing chain and statement-level helpers -/

/-- Disjoint view of the target-routing decision of `deriveCharacterStats`
(one constructor per branch of the `forEach` chain). -/
inductive TRoute where
  | ability (a : String)
  | maxHP
  | ac
  | initiative
  | passivePerception
  | skill (s : String)
  | save (s : String)
  | speed (t : String)
  | sense (t : String)
  | unmatched
deriving DecidableEq

/-- The routing decision taken for a target string, with the same tests in the
same order as `routeStep`. -/
def parseTarget (t : String) : TRoute :=
  if strStartsWith t ("ability.") then TRoute.ability (strDrop t 8)
  else if t = ("maxHP") then TRoute.maxHP
  else if t = ("ac") then TRoute.ac
  else if t = ("initiative") then TRoute.initiative
  else if t = ("passivePerception") then TRoute.passivePerception
  else if strStartsWith t ("skill.") then TRoute.skill (strDrop t 6)
  else if strStartsWith t ("save.") then TRoute.save (strDrop t 5)
  else if strStartsWith t ("speed.") then TRoute.speed (strToLower (strDrop t 6))
  else if strStartsWith t ("sense.") then TRoute.sense (strToLower (strDrop t 6))
  else TRoute.unmatched

/-- Sum of the values of a list of bonuses. -/
def sumVals (l : List Bonus) : Int := (l.map (fun b => b.value)).sum

/-- Does a bonus land in the speed bucket named `ty` (target has the `speed.`
prefix and its lower-cased remainder is `ty`)? -/
def speedMatchB (b : Bonus) (ty : String) : Bool :=
  strStartsWith b.target ("speed.") && decide (strToLower (strDrop b.target 6) = ty)

/-- Does a bonus land in the sense bucket named `ty` (target has the `sense.`
prefix, its lower-cased remainder is `ty`, and `ty` is non-empty, since the
empty sense type is dropped)? -/
def senseMatchB (b : Bonus) (ty : String) : Bool :=
  strStartsWith b.target ("sense.") && decide (strToLower (strDrop b.target 6) = ty) &&
    decide (ty ≠ "")

/-- Range of the first sense entry of a given type in a derived sense list. -/
def senseFind : List Sense → String → Option Int
  | [], _ => none
  | s :: r, ty => if s.sense_type = ty then some s.range else senseFind r ty

/-- Keys of an association list. -/
def akeys {α : Type} (m : List (String × α)) : List String := m.map (fun kv => kv.1)

/-- The canonical bonuses a raw derive input denotes once null entries are
skipped: defined only when every surviving entry has a string target. -/
def cleanRaw (raw : List (Option RawDB)) : List Bonus :=
  raw.filterMap (fun orb => orb.bind (fun rb => rb.target.map
    (fun t => { target := t, value := rb.value, type := rb.rtype, source := rb.rsource })))

/-! ## Concrete fixtures used by counterexamples and witnesses -/

/-- A fixed provenance record for concrete scenarios. -/
def fixSrc : SourceRec := { stype := some ("item"), id := none, label := some ("Test") }

/-- A concrete base attribute snapshot (the one used throughout the repo's own
test suite). -/
def fixBase : Base :=
  { abilities := { strength := 16, dexterity := 14, constitution := 15,
                   intelligence := 10, wisdom := 12, charisma := 8 },
    maxHP := 45, proficiency := 3, acBase := 12, initiativeBase := 2,
    passivePerceptionBase := 11, senses := [], speeds := [(("walk"), 30)] }

/-- The fixture base with 60 ft of base darkvision. -/
def darkBase : Base :=
  { fixBase with senses := [{ sense_type := ("darkvision"), range := 60 }] }

/-- Base character data with charisma 16 (modifier +3). -/
def chaBase16 : List (String × Int) := [(("charisma"), 16)]

/-- The "Scholar of Yore" feature of the end-to-end scenario. -/
def scholarEntry : Entry :=
  { id := none, name := some ("Scholar of Yore"), label := none, title := none,
    bonuses := none, bonus := none,
    benefits := some [Benefit.skill_modifier_bonus (some [("religion"), ("history")])
      (some ("charisma_modifier"))] }

/-- A feature raising charisma by 4 through a legacy bonus, used to check that
benefit resolution keeps using the base (pre-bonus) charisma. -/
def chaBoostEntry : Entry :=
  { id := none, name := some ("Cha Boost"), label := none, title := none,
    bonuses := some [some (RawVal.obj (FieldVal.str ("ability.charisma")) (FieldVal.num 4)
      none none)],
    bonus := none, benefits := none }

/-! ## String-level bridging lemmas -/

theorem strData_append (s t : String) : (s ++ t).data = s.data ++ t.data := by
  cases s
  cases t
  rfl

theorem isStart_iff (p : List Char) : ∀ l, isStart p l = true ↔ ∃ r, l = p ++ r := by
  induction p with
  | nil =>
    intro l
    simp [isStart]
  | cons c cs ih =>
    intro l
    cases l with
    | nil =>
      simp [isStart]
    | cons d ds =>
      simp only [isStart, Bool.and_eq_true, decide_eq_true_eq, ih ds, List.cons_append,
        List.cons.injEq]
      constructor
      · rintro ⟨hcd, r, hr⟩
        exact ⟨r, hcd.symm, hr⟩
      · rintro ⟨r, hdc, hr⟩
        exact ⟨hdc.symm, r, hr⟩

theorem strStartsWith_iff (t p : String) : strStartsWith t p = true ↔ ∃ r, t = p ++ r := by
  unfold strStartsWith
  rw [isStart_iff]
  constructor
  · rintro ⟨r, hr⟩
    refine ⟨String.mk r, ?_⟩
    apply String.ext
    rw [strData_append, hr]
  · rintro ⟨r, hr⟩
    exact ⟨r.data, by rw [hr, strData_append]⟩

theorem strDrop_append (p r : String) : strDrop (p ++ r) p.data.length = r := by
  apply String.ext
  show ((p ++ r).data.drop p.data.length) = r.data
  rw [strData_append, List.drop_left]

/-! ## Characterization of the routing decision -/

theorem parseTarget_ability (s : String) : parseTarget (("ability.") ++ s) = TRoute.ability s := by
  cases s
  rfl

theorem parseTarget_skill (s : String) : parseTarget (("skill.") ++ s) = TRoute.skill s := by
  cases s
  rfl

theorem parseTarget_save (s : String) : parseTarget (("save.") ++ s) = TRoute.save s := by
  cases s
  rfl

theorem parseTarget_speed (s : String) :
    parseTarget (("speed.") ++ s) = TRoute.speed (strToLower s) := by
  cases s
  rfl

theorem parseTarget_sense (s : String) :
    parseTarget (("sense.") ++ s) = TRoute.sense (strToLower s) := by
  cases s
  rfl

theorem parseTarget_eq_ability_iff (t a : String) :
    parseTarget t = TRoute.ability a ↔ t = ("ability.") ++ a := by
  constructor
  · intro h
    unfold parseTarget at h
    split_ifs at h with h1 h2 h3 h4 h5 h6 h7 h8 h9 <;> simp_all
    obtain ⟨r, hr⟩ := (strStartsWith_iff t ("ability.")).mp h1
    subst hr
    have hd : strDrop (("ability.") ++ r) 8 = r := strDrop_append ("ability.") r
    rw [hd] at h
    rw [h]
  · intro h
    subst h
    exact parseTarget_ability a

theorem parseTarget_eq_skill_iff (t a : String) :
    parseTarget t = TRoute.skill a ↔ t = ("skill.") ++ a := by
  constructor
  · intro h
    unfold parseTarget at h
    split_ifs at h with h1 h2 h3 h4 h5 h6 h7 h8 h9 <;> simp_all
    obtain ⟨r, hr⟩ := (strStartsWith_iff t ("skill.")).mp h6
    subst hr
    have hd : strDrop (("skill.") ++ r) 6 = r := strDrop_append ("skill.") r
    rw [hd] at h
    rw [h]
  · intro h
    subst h
    exact parseTarget_skill a

theorem parseTarget_eq_save_iff (t a : String) :
    parseTarget t = TRoute.save a ↔ t = ("save.") ++ a := by
  constructor
  · intro h
    unfold parseTarget at h
    split_ifs at h with h1 h2 h3 h4 h5 h6 h7 h8 h9 <;> simp_all
    obtain ⟨r, hr⟩ := (strStartsWith_iff t ("save.")).mp h7
    subst hr
    have hd : strDrop (("save.") ++ r) 5 = r := strDrop_append ("save.") r
    rw [hd] at h
    rw [h]
  · intro h
    subst h
    exact parseTarget_save a

theorem parseTarget_eq_speed_iff (t a : String) :
    parseTarget t = TRoute.speed a ↔ ∃ s, t = ("speed.") ++ s ∧ strToLower s = a := by
  constructor
  · intro h
    unfold parseTarget at h
    split_ifs at h with h1 h2 h3 h4 h5 h6 h7 h8 h9 <;> simp_all
    obtain ⟨r, hr⟩ := (strStartsWith_iff t ("speed.")).mp h8
    subst hr
    have hd : strDrop (("speed.") ++ r) 6 = r := strDrop_append ("speed.") r
    rw [hd] at h
    exact ⟨r, rfl, by rw [h]⟩
  · rintro ⟨s, hs, hl⟩
    subst hs
    rw [parseTarget_speed, hl]

theorem parseTarget_eq_sense_iff (t a : String) :
    parseTarget t = TRoute.sense a ↔ ∃ s, t = ("sense.") ++ s ∧ strToLower s = a := by
  constructor
  · intro h
    unfold parseTarget at h
    split_ifs at h with h1 h2 h3 h4 h5 h6 h7 h8 h9 <;> simp_all
    obtain ⟨r, hr⟩ := (strStartsWith_iff t ("sense.")).mp h9
    subst hr
    have hd : strDrop (("sense.") ++ r) 6 = r := strDrop_append ("sense.") r
    rw [hd] at h
    exact ⟨r, rfl, by rw [h]⟩
  · rintro ⟨s, hs, hl⟩
    subst hs
    rw [parseTarget_sense, hl]

theorem parseTarget_eq_maxHP_iff (t : String) : parseTarget t = TRoute.maxHP ↔ t = ("maxHP") := by
  constructor
  · intro h
    unfold parseTarget at h
    split_ifs at h <;> simp_all
  · intro h
    subst h
    rfl

theorem parseTarget_eq_ac_iff (t : String) : parseTarget t = TRoute.ac ↔ t = ("ac") := by
  constructor
  · intro h
    unfold parseTarget at h
    split_ifs at h <;> simp_all
  · intro h
    subst h
    rfl

theorem parseTarget_eq_initiative_iff (t : String) :
    parseTarget t = TRoute.initiative ↔ t = ("initiative") := by
  constructor
  · intro h
    unfold parseTarget at h
    split_ifs at h <;> simp_all
  · intro h
    subst h
    rfl

theorem parseTarget_eq_pp_iff (t : String) :
    parseTarget t = TRoute.passivePerception ↔ t = ("passivePerception") := by
  constructor
  · intro h
    unfold parseTarget at h
    split_ifs at h <;> simp_all
  · intro h
    subst h
    rfl

/-! ## Association-list lemmas -/

theorem alookup_aset {α : Type} (m : List (String × α)) (k : String) (v : α) (k' : String) :
    alookup (aset m k v) k' = if k = k' then some v else alookup m k' := by
  induction m with
  | nil =>
    simp [aset, alookup]
  | cons hd tl ih =>
    obtain ⟨k0, v0⟩ := hd
    by_cases h0 : k0 = k
    · subst h0
      rw [show aset ((k0, v0) :: tl) k0 v = (k0, v) :: tl from by simp [aset]]
      by_cases h1 : k0 = k'
      · subst h1
        simp [alookup]
      · simp [alookup, h1]
    · rw [show aset ((k0, v0) :: tl) k v = (k0, v0) :: aset tl k v from by simp [aset, h0]]
      by_cases h1 : k0 = k'
      · subst h1
        rw [if_neg (fun h : k = k0 => h0 h.symm)]
        simp [alookup]
      · simp [alookup, h1, ih]

theorem alookup_eq_none_of_not_mem {α : Type} (m : List (String × α)) (k : String)
    (h : k ∉ akeys m) : alookup m k = none := by
  induction m with
  | nil => rfl
  | cons hd tl ih =>
    obtain ⟨k0, v0⟩ := hd
    simp only [akeys, List.map_cons, List.mem_cons, not_or] at h
    simp only [alookup, if_neg (fun he : k0 = k => h.1 he.symm)]
    exact ih (by simpa [akeys] using h.2)

theorem mem_akeys_aset {α : Type} (m : List (String × α)) (k : String) (v : α) (x : String)
    (h : x ∈ akeys (aset m k v)) : x ∈ akeys m ∨ x = k := by
  induction m with
  | nil =>
    simp [aset, akeys] at h
    exact Or.inr h
  | cons hd tl ih =>
    obtain ⟨k0, v0⟩ := hd
    simp only [aset] at h
    split_ifs at h with h0
    · subst h0
      simp only [akeys, List.map_cons, List.mem_cons] at h ⊢
      exact h.elim (fun hx => Or.inl (Or.inl hx)) (fun hx => Or.inl (Or.inr hx))
    · simp only [akeys, List.map_cons, List.mem_cons] at h ⊢
      rcases h with hx | hx
      · exact Or.inl (Or.inl hx)
      · rcases ih (by simpa [akeys] using hx) with hy | hy
        · exact Or.inl (Or.inr hy)
        · exact Or.inr hy

theorem nodup_akeys_aset {α : Type} (m : List (String × α)) (k : String) (v : α)
    (h : (akeys m).Nodup) : (akeys (aset m k v)).Nodup := by
  induction m with
  | nil =>
    simp [aset, akeys]
  | cons hd tl ih =>
    obtain ⟨k0, v0⟩ := hd
    simp only [akeys, List.map_cons, List.nodup_cons] at h
    simp only [aset]
    split_ifs with h0
    · subst h0
      simp only [akeys, List.map_cons, List.nodup_cons]
      exact ⟨by simpa [akeys] using h.1, by simpa [akeys] using h.2⟩
    · simp only [akeys, List.map_cons, List.nodup_cons]
      refine ⟨?_, by simpa [akeys] using ih h.2⟩
      intro hx
      rcases mem_akeys_aset tl k v k0 (by simpa [akeys] using hx) with hy | hy
      · exact h.1 (by simpa [akeys] using hy)
      · exact h0 hy

/-! ## Shape lemmas for one routing step -/

theorem routeStep_maxHP (st : DState) (b : Bonus) (h : b.target = ("maxHP")) :
    routeStep st b =
      { st with
        totals := { st.totals with maxHP := st.totals.maxHP + b.value },
        sources := { st.sources with maxHP := st.sources.maxHP ++ [b] } } := by
  obtain ⟨tgt, v, ty, src⟩ := b
  cases h
  rfl

theorem routeStep_ac (st : DState) (b : Bonus) (h : b.target = ("ac")) :
    routeStep st b =
      { st with
        totals := { st.totals with ac := st.totals.ac + b.value },
        sources := { st.sources with ac := st.sources.ac ++ [b] } } := by
  obtain ⟨tgt, v, ty, src⟩ := b
  cases h
  rfl

theorem routeStep_initiative (st : DState) (b : Bonus) (h : b.target = ("initiative")) :
    routeStep st b =
      { st with
        totals := { st.totals with initiative := st.totals.initiative + b.value },
        sources := { st.sources with initiative := st.sources.initiative ++ [b] } } := by
  obtain ⟨tgt, v, ty, src⟩ := b
  cases h
  rfl

theorem routeStep_pp (st : DState) (b : Bonus) (h : b.target = ("passivePerception")) :
    routeStep st b =
      { st with
        totals := { st.totals with passivePerception := st.totals.passivePerception + b.value },
        sources := { st.sources with passivePerception := st.sources.passivePerception ++ [b] } } := by
  obtain ⟨tgt, v, ty, src⟩ := b
  cases h
  rfl

theorem routeStep_ability (st : DState) (b : Bonus) (a : String)
    (h : b.target = ("ability.") ++ a) :
    routeStep st b =
      (if abMem a then
        { st with
          totals := { st.totals with abilities := abUpd st.totals.abilities a (· + b.value) },
          sources := { st.sources with abilities := abUpd st.sources.abilities a (· ++ [b]) } }
      else st) := by
  obtain ⟨tgt, v, ty, src⟩ := b
  cases h
  cases a
  rfl

theorem routeStep_skill (st : DState) (b : Bonus) (sk : String) (h : b.target = ("skill.") ++ sk) :
    routeStep st b =
      { st with
        totals := { st.totals with skills := updAdd st.totals.skills sk b.value },
        sources := { st.sources with skills := updPush st.sources.skills sk b } } := by
  obtain ⟨tgt, v, ty, src⟩ := b
  cases h
  cases sk
  rfl

theorem routeStep_save (st : DState) (b : Bonus) (sv : String) (h : b.target = ("save.") ++ sv) :
    routeStep st b =
      { st with
        totals := { st.totals with saves := updAdd st.totals.saves sv b.value },
        sources := { st.sources with saves := updPush st.sources.saves sv b } } := by
  obtain ⟨tgt, v, ty, src⟩ := b
  cases h
  cases sv
  rfl

theorem routeStep_speed (st : DState) (b : Bonus) (s : String) (h : b.target = ("speed.") ++ s) :
    routeStep st b =
      (if strToLower s = "" then st
       else
        { st with
          totals := { st.totals with speeds := updAdd st.totals.speeds (strToLower s) b.value },
          sources := { st.sources with speeds := updPush st.sources.speeds (strToLower s) b } }) := by
  obtain ⟨tgt, v, ty, src⟩ := b
  cases h
  cases s
  rfl

theorem routeStep_sense (st : DState) (b : Bonus) (s : String) (h : b.target = ("sense.") ++ s) :
    routeStep st b =
      (if strToLower s = "" then st
       else
        { st with
          totals := { st.totals with senses := updMax st.totals.senses (strToLower s) b.value },
          sources := { st.sources with senses := updPush st.sources.senses (strToLower s) b } }) := by
  obtain ⟨tgt, v, ty, src⟩ := b
  cases h
  cases s
  rfl

theorem routeStep_unmatched (st : DState) (b : Bonus)
    (h : parseTarget b.target = TRoute.unmatched) : routeStep st b = st := by
  unfold parseTarget at h
  split_ifs at h with h1 h2 h3 h4 h5 h6 h7 h8 h9
  unfold routeStep
  rw [if_neg h1, if_neg h2, if_neg h3, if_neg h4, if_neg h5, if_neg h6, if_neg h7, if_neg h8,
    if_neg h9]

/-! ## Small supporting lemmas -/

theorem strAppend_inj (p s t : String) : p ++ s = p ++ t ↔ s = t := by
  constructor
  · intro h
    have hd := congrArg String.data h
    rw [strData_append, strData_append] at hd
    exact String.ext (List.append_cancel_left hd)
  · intro h
    rw [h]

theorem abUpd_strength {α : Type} (m : AbilityMapG α) (a : String) (f : α → α) :
    (abUpd m a f).strength = if a = ("strength") then f m.strength else m.strength := by
  unfold abUpd
  split_ifs with h1 h2 h3 h4 h5 h6 <;> simp_all

theorem abUpd_dexterity {α : Type} (m : AbilityMapG α) (a : String) (f : α → α) :
    (abUpd m a f).dexterity = if a = ("dexterity") then f m.dexterity else m.dexterity := by
  unfold abUpd
  split_ifs with h1 h2 h3 h4 h5 h6 <;> simp_all

theorem abUpd_constitution {α : Type} (m : AbilityMapG α) (a : String) (f : α → α) :
    (abUpd m a f).constitution = if a = ("constitution") then f m.constitution else m.constitution := by
  unfold abUpd
  split_ifs with h1 h2 h3 h4 h5 h6 <;> simp_all

theorem abUpd_intelligence {α : Type} (m : AbilityMapG α) (a : String) (f : α → α) :
    (abUpd m a f).intelligence = if a = ("intelligence") then f m.intelligence else m.intelligence := by
  unfold abUpd
  split_ifs with h1 h2 h3 h4 h5 h6 <;> simp_all

theorem abUpd_wisdom {α : Type} (m : AbilityMapG α) (a : String) (f : α → α) :
    (abUpd m a f).wisdom = if a = ("wisdom") then f m.wisdom else m.wisdom := by
  unfold abUpd
  split_ifs with h1 h2 h3 h4 h5 h6 <;> simp_all

theorem abUpd_charisma {α : Type} (m : AbilityMapG α) (a : String) (f : α → α) :
    (abUpd m a f).charisma = if a = ("charisma") then f m.charisma else m.charisma := by
  unfold abUpd
  split_ifs with h1 h2 h3 h4 h5 h6 <;> simp_all

theorem alookupD_updAdd (m : List (String × Int)) (k : String) (v : Int) (k' : String) :
    alookupD (updAdd m k v) k' 0 = alookupD m k' 0 + (if k = k' then v else 0) := by
  unfold updAdd alookupD
  rw [alookup_aset]
  by_cases h : k = k'
  · subst h
    simp
  · simp [h]

theorem alookup_updMax (m : List (String × Int)) (k : String) (v : Int) (k' : String) :
    alookup (updMax m k v) k' =
      if k = k' then some (max (alookupD m k' 0) v) else alookup m k' := by
  unfold updMax
  rw [alookup_aset]
  by_cases h : k = k'
  · subst h
    rfl
  · simp [h]

theorem speedMatchB_iff (b : Bonus) (ty : String) :
    speedMatchB b ty = true ↔ parseTarget b.target = TRoute.speed ty := by
  unfold speedMatchB
  rw [Bool.and_eq_true, decide_eq_true_eq]
  constructor
  · rintro ⟨hsw, heq⟩
    obtain ⟨r, hr⟩ := (strStartsWith_iff b.target ("speed.")).mp hsw
    rw [hr, parseTarget_speed]
    rw [hr] at heq
    rw [show strDrop (("speed.") ++ r) 6 = r from strDrop_append ("speed.") r] at heq
    rw [heq]
  · intro h
    obtain ⟨s, hs, hl⟩ := (parseTarget_eq_speed_iff b.target ty).mp h
    rw [hs]
    refine ⟨(strStartsWith_iff _ _).mpr ⟨s, rfl⟩, ?_⟩
    rw [show strDrop (("speed.") ++ s) 6 = s from strDrop_append ("speed.") s, hl]

theorem senseMatchB_iff (b : Bonus) (ty : String) :
    senseMatchB b ty = true ↔ parseTarget b.target = TRoute.sense ty ∧ ty ≠ "" := by
  unfold senseMatchB
  rw [Bool.and_eq_true, Bool.and_eq_true, decide_eq_true_eq, decide_eq_true_eq]
  constructor
  · rintro ⟨⟨hsw, heq⟩, hne⟩
    obtain ⟨r, hr⟩ := (strStartsWith_iff b.target ("sense.")).mp hsw
    rw [hr, parseTarget_sense]
    rw [hr] at heq
    rw [show strDrop (("sense.") ++ r) 6 = r from strDrop_append ("sense.") r] at heq
    exact ⟨by rw [heq], hne⟩
  · rintro ⟨h, hne⟩
    obtain ⟨s, hs, hl⟩ := (parseTarget_eq_sense_iff b.target ty).mp h
    rw [hs]
    refine ⟨⟨(strStartsWith_iff _ _).mpr ⟨s, rfl⟩, ?_⟩, hne⟩
    rw [show strDrop (("sense.") ++ s) 6 = s from strDrop_append ("sense.") s, hl]

theorem foldl_add_inv {σ : Type} (f : σ → Bonus → σ) (g : σ → Int) (h : Bonus → Int)
    (H : ∀ st b, g (f st b) = g st + h b) :
    ∀ (l : List Bonus) (st : σ), g (l.foldl f st) = g st + (l.map h).sum := by
  intro l
  induction l with
  | nil => intro st; simp
  | cons b r ih =>
    intro st
    simp only [List.foldl_cons, List.map_cons, List.sum_cons]
    rw [ih (f st b), H st b]
    ring

theorem sum_map_ite (p : Bonus → Bool) (l : List Bonus) :
    (l.map (fun b => if p b then b.value else 0)).sum = sumVals (l.filter p) := by
  induction l with
  | nil => rfl
  | cons b r ih =>
    by_cases h : p b
    · simp [List.filter_cons, h, sumVals, ih]
    · simp [List.filter_cons, h, sumVals, ih]

theorem routeStep_totals (st : DState) (b : Bonus) :
    ((routeStep st b).totals.maxHP = st.totals.maxHP +
      (if parseTarget b.target = TRoute.maxHP then b.value else 0)) ∧
    ((routeStep st b).totals.ac = st.totals.ac +
      (if parseTarget b.target = TRoute.ac then b.value else 0)) ∧
    ((routeStep st b).totals.initiative = st.totals.initiative +
      (if parseTarget b.target = TRoute.initiative then b.value else 0)) ∧
    ((routeStep st b).totals.passivePerception = st.totals.passivePerception +
      (if parseTarget b.target = TRoute.passivePerception then b.value else 0)) ∧
    ((routeStep st b).totals.abilities.strength = st.totals.abilities.strength +
      (if parseTarget b.target = TRoute.ability ("strength") then b.value else 0)) ∧
    ((routeStep st b).totals.abilities.dexterity = st.totals.abilities.dexterity +
      (if parseTarget b.target = TRoute.ability ("dexterity") then b.value else 0)) ∧
    ((routeStep st b).totals.abilities.constitution = st.totals.abilities.constitution +
      (if parseTarget b.target = TRoute.ability ("constitution") then b.value else 0)) ∧
    ((routeStep st b).totals.abilities.intelligence = st.totals.abilities.intelligence +
      (if parseTarget b.target = TRoute.ability ("intelligence") then b.value else 0)) ∧
    ((routeStep st b).totals.abilities.wisdom = st.totals.abilities.wisdom +
      (if parseTarget b.target = TRoute.ability ("wisdom") then b.value else 0)) ∧
    ((routeStep st b).totals.abilities.charisma = st.totals.abilities.charisma +
      (if parseTarget b.target = TRoute.ability ("charisma") then b.value else 0)) ∧
    (∀ k, alookupD (routeStep st b).totals.skills k 0 = alookupD st.totals.skills k 0 +
      (if parseTarget b.target = TRoute.skill k then b.value else 0)) ∧
    (∀ k, alookupD (routeStep st b).totals.saves k 0 = alookupD st.totals.saves k 0 +
      (if parseTarget b.target = TRoute.save k then b.value else 0)) ∧
    (∀ ty, alookupD (routeStep st b).totals.speeds ty 0 = alookupD st.totals.speeds ty 0 +
      (if parseTarget b.target = TRoute.speed ty ∧ ty ≠ "" then b.value else 0)) ∧
    (∀ ty, alookup (routeStep st b).totals.senses ty =
      (if parseTarget b.target = TRoute.sense ty ∧ ty ≠ ""
       then some (max (alookupD st.totals.senses ty 0) b.value)
       else alookup st.totals.senses ty)) := by
  rcases hp : parseTarget b.target with a | _ | _ | _ | _ | sk | sv | sp | se | _
  · have hb := (parseTarget_eq_ability_iff b.target a).mp hp
    rw [routeStep_ability st b a hb]
    by_cases hm : abMem a = true
    · rw [if_pos hm]
      refine ⟨by simp [hp], by simp [hp], by simp [hp], by simp [hp], ?_, ?_, ?_, ?_, ?_, ?_,
        by intro k; simp [hp], by intro k; simp [hp], by intro ty; simp [hp],
        by intro ty; simp [hp]⟩
      · simp only [hp, abUpd_strength, TRoute.ability.injEq]
        split_ifs with h <;> simp
      · simp only [hp, abUpd_dexterity, TRoute.ability.injEq]
        split_ifs with h <;> simp
      · simp only [hp, abUpd_constitution, TRoute.ability.injEq]
        split_ifs with h <;> simp
      · simp only [hp, abUpd_intelligence, TRoute.ability.injEq]
        split_ifs with h <;> simp
      · simp only [hp, abUpd_wisdom, TRoute.ability.injEq]
        split_ifs with h <;> simp
      · simp only [hp, abUpd_charisma, TRoute.ability.injEq]
        split_ifs with h <;> simp
    · rw [if_neg hm]
      have ha : ¬(a = ("strength")) ∧ ¬(a = ("dexterity")) ∧ ¬(a = ("constitution")) ∧
          ¬(a = ("intelligence")) ∧ ¬(a = ("wisdom")) ∧ ¬(a = ("charisma")) := by
        simpa [abMem, not_or, and_assoc] using hm
      obtain ⟨ha1, ha2, ha3, ha4, ha5, ha6⟩ := ha
      exact ⟨by simp [hp], by simp [hp], by simp [hp], by simp [hp], by simp [hp, ha1],
        by simp [hp, ha2], by simp [hp, ha3], by simp [hp, ha4], by simp [hp, ha5],
        by simp [hp, ha6], by intro k; simp [hp], by intro k; simp [hp],
        by intro ty; simp [hp], by intro ty; simp [hp]⟩
  · have hb := (parseTarget_eq_maxHP_iff b.target).mp hp
    rw [routeStep_maxHP st b hb]
    exact ⟨by simp [hp], by simp [hp], by simp [hp], by simp [hp], by simp [hp], by simp [hp],
      by simp [hp], by simp [hp], by simp [hp], by simp [hp], by intro k; simp [hp],
      by intro k; simp [hp], by intro ty; simp [hp], by intro ty; simp [hp]⟩
  · have hb := (parseTarget_eq_ac_iff b.target).mp hp
    rw [routeStep_ac st b hb]
    exact ⟨by simp [hp], by simp [hp], by simp [hp], by simp [hp], by simp [hp], by simp [hp],
      by simp [hp], by simp [hp], by simp [hp], by simp [hp], by intro k; simp [hp],
      by intro k; simp [hp], by intro ty; simp [hp], by intro ty; simp [hp]⟩
  · have hb := (parseTarget_eq_initiative_iff b.target).mp hp
    rw [routeStep_initiative st b hb]
    exact ⟨by simp [hp], by simp [hp], by simp [hp], by simp [hp], by simp [hp], by simp [hp],
      by simp [hp], by simp [hp], by simp [hp], by simp [hp], by intro k; simp [hp],
      by intro k; simp [hp], by intro ty; simp [hp], by intro ty; simp [hp]⟩
  · have hb := (parseTarget_eq_pp_iff b.target).mp hp
    rw [routeStep_pp st b hb]
    exact ⟨by simp [hp], by simp [hp], by simp [hp], by simp [hp], by simp [hp], by simp [hp],
      by simp [hp], by simp [hp], by simp [hp], by simp [hp], by intro k; simp [hp],
      by intro k; simp [hp], by intro ty; simp [hp], by intro ty; simp [hp]⟩
  · have hb := (parseTarget_eq_skill_iff b.target sk).mp hp
    rw [routeStep_skill st b sk hb]
    refine ⟨by simp [hp], by simp [hp], by simp [hp], by simp [hp], by simp [hp], by simp [hp],
      by simp [hp], by simp [hp], by simp [hp], by simp [hp], ?_,
      by intro k; simp [hp], by intro ty; simp [hp], by intro ty; simp [hp]⟩
    intro k
    simp [hp, alookupD_updAdd]
  · have hb := (parseTarget_eq_save_iff b.target sv).mp hp
    rw [routeStep_save st b sv hb]
    refine ⟨by simp [hp], by simp [hp], by simp [hp], by simp [hp], by simp [hp], by simp [hp],
      by simp [hp], by simp [hp], by simp [hp], by simp [hp], by intro k; simp [hp], ?_,
      by intro ty; simp [hp], by intro ty; simp [hp]⟩
    intro k
    simp [hp, alookupD_updAdd]
  · obtain ⟨s, hs, hl⟩ := (parseTarget_eq_speed_iff b.target sp).mp hp
    subst hl
    rw [routeStep_speed st b s hs]
    by_cases hz : strToLower s = ""
    · rw [if_pos hz]
      refine ⟨by simp [hp], by simp [hp], by simp [hp], by simp [hp], by simp [hp], by simp [hp],
        by simp [hp], by simp [hp], by simp [hp], by simp [hp], by intro k; simp [hp],
        by intro k; simp [hp], ?_, by intro ty; simp [hp]⟩
      intro ty
      have hc : ¬(TRoute.speed (strToLower s) = TRoute.speed ty ∧ ty ≠ ("")) := by
        rintro ⟨he, hne⟩
        rw [TRoute.speed.injEq] at he
        exact hne (he ▸ hz)
      rw [if_neg hc]
      simp
    · rw [if_neg hz]
      refine ⟨by simp [hp], by simp [hp], by simp [hp], by simp [hp], by simp [hp], by simp [hp],
        by simp [hp], by simp [hp], by simp [hp], by simp [hp], by intro k; simp [hp],
        by intro k; simp [hp], ?_, by intro ty; simp [hp]⟩
      intro ty
      rw [alookupD_updAdd]
      by_cases hty : strToLower s = ty
      · subst hty
        simp [hp, hz]
      · have hc : ¬(TRoute.speed (strToLower s) = TRoute.speed ty ∧ ty ≠ ("")) := by
          rintro ⟨he, hne⟩
          exact hty (by rwa [TRoute.speed.injEq] at he)
        rw [if_neg hc, if_neg hty]
  · obtain ⟨s, hs, hl⟩ := (parseTarget_eq_sense_iff b.target se).mp hp
    subst hl
    rw [routeStep_sense st b s hs]
    by_cases hz : strToLower s = ""
    · rw [if_pos hz]
      refine ⟨by simp [hp], by simp [hp], by simp [hp], by simp [hp], by simp [hp], by simp [hp],
        by simp [hp], by simp [hp], by simp [hp], by simp [hp], by intro k; simp [hp],
        by intro k; simp [hp], by intro ty; simp [hp], ?_⟩
      intro ty
      have hc : ¬(TRoute.sense (strToLower s) = TRoute.sense ty ∧ ty ≠ ("")) := by
        rintro ⟨he, hne⟩
        rw [TRoute.sense.injEq] at he
        exact hne (he ▸ hz)
      rw [if_neg hc]
    · rw [if_neg hz]
      refine ⟨by simp [hp], by simp [hp], by simp [hp], by simp [hp], by simp [hp], by simp [hp],
        by simp [hp], by simp [hp], by simp [hp], by simp [hp], by intro k; simp [hp],
        by intro k; simp [hp], by intro ty; simp [hp], ?_⟩
      intro ty
      rw [alookup_updMax]
      by_cases hty : strToLower s = ty
      · subst hty
        simp [hp, hz]
      · have hc : ¬(TRoute.sense (strToLower s) = TRoute.sense ty ∧ ty ≠ ("")) := by
          rintro ⟨he, hne⟩
          exact hty (by rwa [TRoute.sense.injEq] at he)
        rw [if_neg hc, if_neg hty]
  · rw [routeStep_unmatched st b hp]
    exact ⟨by simp [hp], by simp [hp], by simp [hp], by simp [hp], by simp [hp], by simp [hp],
      by simp [hp], by simp [hp], by simp [hp], by simp [hp], by intro k; simp [hp],
      by intro k; simp [hp], by intro ty; simp [hp], by intro ty; simp [hp]⟩

/-! ## Projections of the step characterization -/

theorem rt_maxHP (st : DState) (b : Bonus) : (routeStep st b).totals.maxHP = st.totals.maxHP +
    (if parseTarget b.target = TRoute.maxHP then b.value else 0) :=
  (routeStep_totals st b).1

theorem rt_ac (st : DState) (b : Bonus) : (routeStep st b).totals.ac = st.totals.ac +
    (if parseTarget b.target = TRoute.ac then b.value else 0) :=
  (routeStep_totals st b).2.1

theorem rt_initiative (st : DState) (b : Bonus) : (routeStep st b).totals.initiative =
    st.totals.initiative + (if parseTarget b.target = TRoute.initiative then b.value else 0) :=
  (routeStep_totals st b).2.2.1

theorem rt_pp (st : DState) (b : Bonus) : (routeStep st b).totals.passivePerception =
    st.totals.passivePerception +
    (if parseTarget b.target = TRoute.passivePerception then b.value else 0) :=
  (routeStep_totals st b).2.2.2.1

theorem rt_str (st : DState) (b : Bonus) : (routeStep st b).totals.abilities.strength =
    st.totals.abilities.strength +
    (if parseTarget b.target = TRoute.ability ("strength") then b.value else 0) :=
  (routeStep_totals st b).2.2.2.2.1

theorem rt_dex (st : DState) (b : Bonus) : (routeStep st b).totals.abilities.dexterity =
    st.totals.abilities.dexterity +
    (if parseTarget b.target = TRoute.ability ("dexterity") then b.value else 0) :=
  (routeStep_totals st b).2.2.2.2.2.1

theorem rt_con (st : DState) (b : Bonus) : (routeStep st b).totals.abilities.constitution =
    st.totals.abilities.constitution +
    (if parseTarget b.target = TRoute.ability ("constitution") then b.value else 0) :=
  (routeStep_totals st b).2.2.2.2.2.2.1

theorem rt_int (st : DState) (b : Bonus) : (routeStep st b).totals.abilities.intelligence =
    st.totals.abilities.intelligence +
    (if parseTarget b.target = TRoute.ability ("intelligence") then b.value else 0) :=
  (routeStep_totals st b).2.2.2.2.2.2.2.1

theorem rt_wis (st : DState) (b : Bonus) : (routeStep st b).totals.abilities.wisdom =
    st.totals.abilities.wisdom +
    (if parseTarget b.target = TRoute.ability ("wisdom") then b.value else 0) :=
  (routeStep_totals st b).2.2.2.2.2.2.2.2.1

theorem rt_cha (st : DState) (b : Bonus) : (routeStep st b).totals.abilities.charisma =
    st.totals.abilities.charisma +
    (if parseTarget b.target = TRoute.ability ("charisma") then b.value else 0) :=
  (routeStep_totals st b).2.2.2.2.2.2.2.2.2.1

theorem rt_skills (st : DState) (b : Bonus) (k : String) :
    alookupD (routeStep st b).totals.skills k 0 = alookupD st.totals.skills k 0 +
    (if parseTarget b.target = TRoute.skill k then b.value else 0) :=
  (routeStep_totals st b).2.2.2.2.2.2.2.2.2.2.1 k

theorem rt_saves (st : DState) (b : Bonus) (k : String) :
    alookupD (routeStep st b).totals.saves k 0 = alookupD st.totals.saves k 0 +
    (if parseTarget b.target = TRoute.save k then b.value else 0) :=
  (routeStep_totals st b).2.2.2.2.2.2.2.2.2.2.2.1 k

theorem rt_speeds (st : DState) (b : Bonus) (ty : String) :
    alookupD (routeStep st b).totals.speeds ty 0 = alookupD st.totals.speeds ty 0 +
    (if parseTarget b.target = TRoute.speed ty ∧ ty ≠ "" then b.value else 0) :=
  (routeStep_totals st b).2.2.2.2.2.2.2.2.2.2.2.2.1 ty

theorem rt_senses (st : DState) (b : Bonus) (ty : String) :
    alookup (routeStep st b).totals.senses ty =
      (if parseTarget b.target = TRoute.sense ty ∧ ty ≠ ""
       then some (max (alookupD st.totals.senses ty 0) b.value)
       else alookup st.totals.senses ty) :=
  (routeStep_totals st b).2.2.2.2.2.2.2.2.2.2.2.2.2 ty

/-! ## Folding the characterization over a bonus list -/

theorem map_ite_filter (P : Bonus → Prop) [DecidablePred P] (q : Bonus → Bool)
    (hq : ∀ b, q b = true ↔ P b) (l : List Bonus) :
    (l.map (fun b => if P b then b.value else 0)).sum = sumVals (l.filter q) := by
  induction l with
  | nil => rfl
  | cons b r ih =>
    by_cases h : P b
    · rw [List.map_cons, List.sum_cons, if_pos h, List.filter_cons,
        if_pos ((hq b).mpr h), ih]
      simp [sumVals]
    · rw [List.map_cons, List.sum_cons, if_neg h, List.filter_cons,
        if_neg (fun hc => h ((hq b).mp hc)), ih]
      simp

theorem fold_maxHP (l : List Bonus) (st : DState) :
    (l.foldl routeStep st).totals.maxHP = st.totals.maxHP +
      sumVals (l.filter (fun b => decide (b.target = ("maxHP")))) := by
  rw [← map_ite_filter (fun b => parseTarget b.target = TRoute.maxHP)
    (fun b => decide (b.target = ("maxHP")))
    (fun b => by rw [decide_eq_true_eq]; exact (parseTarget_eq_maxHP_iff b.target).symm) l]
  exact foldl_add_inv routeStep (fun st => st.totals.maxHP) _ rt_maxHP l st

theorem fold_ac (l : List Bonus) (st : DState) :
    (l.foldl routeStep st).totals.ac = st.totals.ac +
      sumVals (l.filter (fun b => decide (b.target = ("ac")))) := by
  rw [← map_ite_filter (fun b => parseTarget b.target = TRoute.ac)
    (fun b => decide (b.target = ("ac")))
    (fun b => by rw [decide_eq_true_eq]; exact (parseTarget_eq_ac_iff b.target).symm) l]
  exact foldl_add_inv routeStep (fun st => st.totals.ac) _ rt_ac l st

theorem fold_initiative (l : List Bonus) (st : DState) :
    (l.foldl routeStep st).totals.initiative = st.totals.initiative +
      sumVals (l.filter (fun b => decide (b.target = ("initiative")))) := by
  rw [← map_ite_filter (fun b => parseTarget b.target = TRoute.initiative)
    (fun b => decide (b.target = ("initiative")))
    (fun b => by rw [decide_eq_true_eq]; exact (parseTarget_eq_initiative_iff b.target).symm) l]
  exact foldl_add_inv routeStep (fun st => st.totals.initiative) _ rt_initiative l st

theorem fold_pp (l : List Bonus) (st : DState) :
    (l.foldl routeStep st).totals.passivePerception = st.totals.passivePerception +
      sumVals (l.filter (fun b => decide (b.target = ("passivePerception")))) := by
  rw [← map_ite_filter (fun b => parseTarget b.target = TRoute.passivePerception)
    (fun b => decide (b.target = ("passivePerception")))
    (fun b => by rw [decide_eq_true_eq]; exact (parseTarget_eq_pp_iff b.target).symm) l]
  exact foldl_add_inv routeStep (fun st => st.totals.passivePerception) _ rt_pp l st

theorem fold_str (l : List Bonus) (st : DState) :
    (l.foldl routeStep st).totals.abilities.strength = st.totals.abilities.strength +
      sumVals (l.filter (fun b => decide (b.target = ("ability.strength")))) := by
  rw [← map_ite_filter (fun b => parseTarget b.target = TRoute.ability ("strength"))
    (fun b => decide (b.target = ("ability.strength")))
    (fun b => by
      rw [decide_eq_true_eq]
      exact (parseTarget_eq_ability_iff b.target ("strength")).symm) l]
  exact foldl_add_inv routeStep (fun st => st.totals.abilities.strength) _ rt_str l st

theorem fold_dex (l : List Bonus) (st : DState) :
    (l.foldl routeStep st).totals.abilities.dexterity = st.totals.abilities.dexterity +
      sumVals (l.filter (fun b => decide (b.target = ("ability.dexterity")))) := by
  rw [← map_ite_filter (fun b => parseTarget b.target = TRoute.ability ("dexterity"))
    (fun b => decide (b.target = ("ability.dexterity")))
    (fun b => by
      rw [decide_eq_true_eq]
      exact (parseTarget_eq_ability_iff b.target ("dexterity")).symm) l]
  exact foldl_add_inv routeStep (fun st => st.totals.abilities.dexterity) _ rt_dex l st

theorem fold_con (l : List Bonus) (st : DState) :
    (l.foldl routeStep st).totals.abilities.constitution = st.totals.abilities.constitution +
      sumVals (l.filter (fun b => decide (b.target = ("ability.constitution")))) := by
  rw [← map_ite_filter (fun b => parseTarget b.target = TRoute.ability ("constitution"))
    (fun b => decide (b.target = ("ability.constitution")))
    (fun b => by
      rw [decide_eq_true_eq]
      exact (parseTarget_eq_ability_iff b.target ("constitution")).symm) l]
  exact foldl_add_inv routeStep (fun st => st.totals.abilities.constitution) _ rt_con l st

theorem fold_int (l : List Bonus) (st : DState) :
    (l.foldl routeStep st).totals.abilities.intelligence = st.totals.abilities.intelligence +
      sumVals (l.filter (fun b => decide (b.target = ("ability.intelligence")))) := by
  rw [← map_ite_filter (fun b => parseTarget b.target = TRoute.ability ("intelligence"))
    (fun b => decide (b.target = ("ability.intelligence")))
    (fun b => by
      rw [decide_eq_true_eq]
      exact (parseTarget_eq_ability_iff b.target ("intelligence")).symm) l]
  exact foldl_add_inv routeStep (fun st => st.totals.abilities.intelligence) _ rt_int l st

theorem fold_wis (l : List Bonus) (st : DState) :
    (l.foldl routeStep st).totals.abilities.wisdom = st.totals.abilities.wisdom +
      sumVals (l.filter (fun b => decide (b.target = ("ability.wisdom")))) := by
  rw [← map_ite_filter (fun b => parseTarget b.target = TRoute.ability ("wisdom"))
    (fun b => decide (b.target = ("ability.wisdom")))
    (fun b => by
      rw [decide_eq_true_eq]
      exact (parseTarget_eq_ability_iff b.target ("wisdom")).symm) l]
  exact foldl_add_inv routeStep (fun st => st.totals.abilities.wisdom) _ rt_wis l st

theorem fold_cha (l : List Bonus) (st : DState) :
    (l.foldl routeStep st).totals.abilities.charisma = st.totals.abilities.charisma +
      sumVals (l.filter (fun b => decide (b.target = ("ability.charisma")))) := by
  rw [← map_ite_filter (fun b => parseTarget b.target = TRoute.ability ("charisma"))
    (fun b => decide (b.target = ("ability.charisma")))
    (fun b => by
      rw [decide_eq_true_eq]
      exact (parseTarget_eq_ability_iff b.target ("charisma")).symm) l]
  exact foldl_add_inv routeStep (fun st => st.totals.abilities.charisma) _ rt_cha l st

theorem fold_skills (l : List Bonus) (st : DState) (k : String) :
    alookupD (l.foldl routeStep st).totals.skills k 0 = alookupD st.totals.skills k 0 +
      sumVals (l.filter (fun b => decide (b.target = ("skill.") ++ k))) := by
  rw [← map_ite_filter (fun b => parseTarget b.target = TRoute.skill k)
    (fun b => decide (b.target = ("skill.") ++ k))
    (fun b => by rw [decide_eq_true_eq]; exact (parseTarget_eq_skill_iff b.target k).symm) l]
  exact foldl_add_inv routeStep (fun st => alookupD st.totals.skills k 0) _
    (fun st b => rt_skills st b k) l st

theorem fold_saves (l : List Bonus) (st : DState) (k : String) :
    alookupD (l.foldl routeStep st).totals.saves k 0 = alookupD st.totals.saves k 0 +
      sumVals (l.filter (fun b => decide (b.target = ("save.") ++ k))) := by
  rw [← map_ite_filter (fun b => parseTarget b.target = TRoute.save k)
    (fun b => decide (b.target = ("save.") ++ k))
    (fun b => by rw [decide_eq_true_eq]; exact (parseTarget_eq_save_iff b.target k).symm) l]
  exact foldl_add_inv routeStep (fun st => alookupD st.totals.saves k 0) _
    (fun st b => rt_saves st b k) l st

theorem fold_speeds (l : List Bonus) (st : DState) (ty : String) :
    alookupD (l.foldl routeStep st).totals.speeds ty 0 = alookupD st.totals.speeds ty 0 +
      (if ty = "" then 0 else sumVals (l.filter (fun b => speedMatchB b ty))) := by
  by_cases hty : ty = ("")
  · rw [if_pos hty]
    have hz : ∀ (st : DState) (b : Bonus), alookupD (routeStep st b).totals.speeds ty 0 =
        alookupD st.totals.speeds ty 0 + (fun _ : Bonus => (0 : Int)) b := by
      intro st b
      rw [rt_speeds st b ty, if_neg (fun hc => hc.2 hty)]
    have := foldl_add_inv routeStep (fun st => alookupD st.totals.speeds ty 0)
      (fun _ => (0 : Int)) hz l st
    rw [this]
    simp
  · rw [if_neg hty]
    rw [← map_ite_filter (fun b => parseTarget b.target = TRoute.speed ty ∧ ty ≠ (""))
      (fun b => speedMatchB b ty)
      (fun b => by
        rw [speedMatchB_iff]
        exact ⟨fun h => ⟨h, hty⟩, fun h => h.1⟩) l]
    exact foldl_add_inv routeStep (fun st => alookupD st.totals.speeds ty 0) _
      (fun st b => rt_speeds st b ty) l st

theorem fold_senses (l : List Bonus) : ∀ (st : DState) (ty : String),
    alookup (l.foldl routeStep st).totals.senses ty =
      (if (l.filter (fun b => senseMatchB b ty)).map (fun b => b.value) = [] then
        alookup st.totals.senses ty
       else
        some (((l.filter (fun b => senseMatchB b ty)).map (fun b => b.value)).foldl max
          (alookupD st.totals.senses ty 0))) := by
  induction l with
  | nil =>
    intro st ty
    simp
  | cons b r ih =>
    intro st ty
    by_cases hm : senseMatchB b ty = true
    · have hcond : parseTarget b.target = TRoute.sense ty ∧ ty ≠ ("") :=
        (senseMatchB_iff b ty).mp hm
      have hstep := rt_senses st b ty
      rw [if_pos hcond] at hstep
      have hstepD : alookupD (routeStep st b).totals.senses ty 0 =
          max (alookupD st.totals.senses ty 0) b.value := by
        unfold alookupD
        rw [hstep]
        rfl
      rw [List.foldl_cons, ih (routeStep st b) ty, List.filter_cons, if_pos hm, List.map_cons]
      by_cases hr : (r.filter (fun b => senseMatchB b ty)).map (fun b => b.value) = []
      · rw [if_pos hr, if_neg (by simp [hr]), hr, hstep]
        simp
      · rw [if_neg hr, if_neg (by simp), hstepD]
        simp
    · have hcond : ¬(parseTarget b.target = TRoute.sense ty ∧ ty ≠ ("")) :=
        fun hc => hm ((senseMatchB_iff b ty).mpr hc)
      have hstep := rt_senses st b ty
      rw [if_neg hcond] at hstep
      have hstepD : alookupD (routeStep st b).totals.senses ty 0 =
          alookupD st.totals.senses ty 0 := by
        unfold alookupD
        rw [hstep]
      rw [List.foldl_cons, ih (routeStep st b) ty, List.filter_cons, if_neg hm, hstep, hstepD]

theorem routeStep_nodup (st : DState) (b : Bonus) :
    ((akeys st.totals.speeds).Nodup → (akeys (routeStep st b).totals.speeds).Nodup) ∧
    ((akeys st.totals.senses).Nodup → (akeys (routeStep st b).totals.senses).Nodup) := by
  rcases hp : parseTarget b.target with a | _ | _ | _ | _ | sk | sv | sp | se | _
  · rw [routeStep_ability st b a ((parseTarget_eq_ability_iff b.target a).mp hp)]
    split_ifs <;> exact ⟨id, id⟩
  · rw [routeStep_maxHP st b ((parseTarget_eq_maxHP_iff b.target).mp hp)]
    exact ⟨id, id⟩
  · rw [routeStep_ac st b ((parseTarget_eq_ac_iff b.target).mp hp)]
    exact ⟨id, id⟩
  · rw [routeStep_initiative st b ((parseTarget_eq_initiative_iff b.target).mp hp)]
    exact ⟨id, id⟩
  · rw [routeStep_pp st b ((parseTarget_eq_pp_iff b.target).mp hp)]
    exact ⟨id, id⟩
  · rw [routeStep_skill st b sk ((parseTarget_eq_skill_iff b.target sk).mp hp)]
    exact ⟨id, id⟩
  · rw [routeStep_save st b sv ((parseTarget_eq_save_iff b.target sv).mp hp)]
    exact ⟨id, id⟩
  · obtain ⟨s, hs, hl⟩ := (parseTarget_eq_speed_iff b.target sp).mp hp
    rw [routeStep_speed st b s hs]
    split_ifs
    · exact ⟨id, id⟩
    · exact ⟨fun h => nodup_akeys_aset _ _ _ h, id⟩
  · obtain ⟨s, hs, hl⟩ := (parseTarget_eq_sense_iff b.target se).mp hp
    rw [routeStep_sense st b s hs]
    split_ifs
    · exact ⟨id, id⟩
    · exact ⟨id, fun h => nodup_akeys_aset _ _ _ h⟩
  · rw [routeStep_unmatched st b hp]
    exact ⟨id, id⟩

theorem fold_nodup (l : List Bonus) : ∀ st : DState,
    ((akeys st.totals.speeds).Nodup → (akeys (l.foldl routeStep st).totals.speeds).Nodup) ∧
    ((akeys st.totals.senses).Nodup → (akeys (l.foldl routeStep st).totals.senses).Nodup) := by
  induction l with
  | nil => intro st; exact ⟨id, id⟩
  | cons b r ih =>
    intro st
    rw [List.foldl_cons]
    exact ⟨fun h => (ih (routeStep st b)).1 ((routeStep_nodup st b).1 h),
      fun h => (ih (routeStep st b)).2 ((routeStep_nodup st b).2 h)⟩

theorem alookup_cons_self {α : Type} (k0 : String) (v0 : α) (r : List (String × α)) :
    alookup ((k0, v0) :: r) k0 = some v0 := by
  show (if k0 = k0 then some v0 else alookup r k0) = some v0
  rw [if_pos rfl]

theorem alookup_cons_ne {α : Type} (k0 : String) (v0 : α) (r : List (String × α)) (t : String)
    (h : k0 ≠ t) : alookup ((k0, v0) :: r) t = alookup r t := by
  show (if k0 = t then some v0 else alookup r t) = alookup r t
  rw [if_neg h]

theorem alookupD_speedfold (ts : List (String × Int)) :
    ∀ (bm : List (String × Int)) (t : String), (akeys ts).Nodup →
    alookupD (ts.foldl (fun acc kv => aset acc kv.1 (alookupD acc kv.1 0 + kv.2)) bm) t 0 =
      alookupD bm t 0 + alookupD ts t 0 := by
  induction ts with
  | nil =>
    intro bm t _
    simp [alookupD, alookup]
  | cons kv r ih =>
    intro bm t hnd
    obtain ⟨k0, v0⟩ := kv
    simp only [akeys, List.map_cons, List.nodup_cons] at hnd
    rw [List.foldl_cons]
    rw [ih _ t (by simpa [akeys] using hnd.2)]
    by_cases ht : t = k0
    · subst ht
      have h1 : alookupD (aset bm t (alookupD bm t 0 + v0)) t 0 = alookupD bm t 0 + v0 := by
        unfold alookupD
        rw [alookup_aset, if_pos rfl]
        rfl
      have h2 : alookupD r t 0 = 0 := by
        unfold alookupD
        rw [alookup_eq_none_of_not_mem r t (by simpa [akeys] using hnd.1)]
        rfl
      have h3 : alookupD ((t, v0) :: r) t 0 = v0 := by
        unfold alookupD
        rw [alookup_cons_self]
        rfl
      rw [h1, h2, h3]
      ring
    · have h1 : alookupD (aset bm k0 (alookupD bm k0 0 + v0)) t 0 = alookupD bm t 0 := by
        unfold alookupD
        rw [alookup_aset, if_neg (fun hc => ht hc.symm)]
      have h2 : alookupD ((k0, v0) :: r) t 0 = alookupD r t 0 := by
        unfold alookupD
        rw [alookup_cons_ne k0 v0 r t (fun hc => ht hc.symm)]
      rw [h1, h2]

theorem alookup_mergefold (bm : List (String × Int)) (ts : List (String × Int)) :
    ∀ (acc : List (String × Int)) (t : String), (akeys ts).Nodup →
    alookup (ts.foldl (fun a kv => aset a kv.1 (max (alookupD bm kv.1 0) kv.2)) acc) t =
      (match alookup ts t with
       | some v => some (max (alookupD bm t 0) v)
       | none => alookup acc t) := by
  induction ts with
  | nil =>
    intro acc t _
    rfl
  | cons kv r ih =>
    intro acc t hnd
    obtain ⟨k0, v0⟩ := kv
    simp only [akeys, List.map_cons, List.nodup_cons] at hnd
    rw [List.foldl_cons, ih _ t (by simpa [akeys] using hnd.2)]
    by_cases ht : t = k0
    · subst ht
      rw [alookup_eq_none_of_not_mem r t (by simpa [akeys] using hnd.1), alookup_cons_self]
      show alookup (aset acc t (max (alookupD bm t 0) v0)) t = some (max (alookupD bm t 0) v0)
      rw [alookup_aset, if_pos rfl]
    · rw [alookup_cons_ne k0 v0 r t (fun hc => ht hc.symm)]
      cases halo : alookup r t with
      | some v => rfl
      | none =>
        show alookup (aset acc k0 (max (alookupD bm k0 0) v0)) t = alookup acc t
        rw [alookup_aset, if_neg (fun hc2 => ht hc2.symm)]

theorem nodup_senseFoldAux (l : List Sense) : ∀ acc : List (String × Int), (akeys acc).Nodup →
    (akeys (l.foldl (fun acc s =>
      if s.sense_type = "" then acc else updMax acc s.sense_type s.range) acc)).Nodup := by
  induction l with
  | nil => intro acc h; exact h
  | cons s r ih =>
    intro acc h
    rw [List.foldl_cons]
    by_cases hs : s.sense_type = ("")
    · rw [if_pos hs]
      exact ih acc h
    · rw [if_neg hs]
      exact ih _ (nodup_akeys_aset _ _ _ h)

theorem nodup_toSenseMap (l : List Sense) : (akeys (toSenseMap l)).Nodup :=
  nodup_senseFoldAux l [] (by simp [akeys])

theorem nodup_mergefoldAux (bm : List (String × Int)) (ts : List (String × Int)) :
    ∀ acc : List (String × Int), (akeys acc).Nodup →
    (akeys (ts.foldl (fun a kv => aset a kv.1 (max (alookupD bm kv.1 0) kv.2)) acc)).Nodup := by
  induction ts with
  | nil => intro acc h; exact h
  | cons kv r ih =>
    intro acc h
    rw [List.foldl_cons]
    exact ih _ (nodup_akeys_aset _ _ _ h)

theorem senseFind_none (m : List (String × Int)) (t : String) (h : t ∉ akeys m) :
    senseFind ((m.filter (fun kv => decide (0 < kv.2))).map
      (fun kv => { sense_type := kv.1, range := kv.2 : Sense })) t = none := by
  induction m with
  | nil => rfl
  | cons kv r ih =>
    obtain ⟨k0, u⟩ := kv
    simp only [akeys, List.map_cons, List.mem_cons, not_or] at h
    by_cases hu : (0 : Int) < u
    · rw [List.filter_cons, if_pos (by simpa using hu), List.map_cons]
      show (if k0 = t then some u else _) = none
      rw [if_neg (fun hc => h.1 hc.symm)]
      exact ih (by simpa [akeys] using h.2)
    · rw [List.filter_cons, if_neg (by simpa using hu)]
      exact ih (by simpa [akeys] using h.2)

theorem senseFind_filter_lookup (m : List (String × Int)) : ∀ (t : String) (v : Int),
    (akeys m).Nodup → alookup m t = some v →
    senseFind ((m.filter (fun kv => decide (0 < kv.2))).map
      (fun kv => { sense_type := kv.1, range := kv.2 : Sense })) t =
      (if 0 < v then some v else none) := by
  induction m with
  | nil =>
    intro t v _ hl
    exact absurd hl (by simp [alookup])
  | cons kv r ih =>
    intro t v hnd hl
    obtain ⟨k0, u⟩ := kv
    simp only [akeys, List.map_cons, List.nodup_cons] at hnd
    by_cases ht : k0 = t
    · subst ht
      rw [alookup_cons_self] at hl
      obtain rfl : u = v := by injection hl
      by_cases hu : (0 : Int) < u
      · rw [List.filter_cons, if_pos (by simpa using hu), List.map_cons]
        show (if k0 = k0 then some u else _) = _
        rw [if_pos rfl, if_pos hu]
      · rw [List.filter_cons, if_neg (by simpa using hu), if_neg hu]
        exact senseFind_none r k0 (by simpa [akeys] using hnd.1)
    · rw [alookup_cons_ne k0 u r t ht] at hl
      by_cases hu : (0 : Int) < u
      · rw [List.filter_cons, if_pos (by simpa using hu), List.map_cons]
        show (if k0 = t then some u else _) = _
        rw [if_neg ht]
        exact ih t v (by simpa [akeys] using hnd.2) hl
      · rw [List.filter_cons, if_neg (by simpa using hu)]
        exact ih t v (by simpa [akeys] using hnd.2) hl

theorem checkTargets_ok (raw : List (Option RawDB))
    (h : ∀ orb ∈ raw, ∀ rb : RawDB, orb = some rb → rb.target.isSome = true) :
    checkTargets raw = Except.ok (cleanRaw raw) := by
  induction raw with
  | nil => rfl
  | cons orb r ih =>
    have hr : ∀ orb ∈ r, ∀ rb : RawDB, orb = some rb → rb.target.isSome = true :=
      fun o ho rb he => h o (List.mem_cons_of_mem _ ho) rb he
    cases orb with
    | none =>
      show checkTargets r = _
      rw [ih hr]
      rfl
    | some rb =>
      cases hb : rb.target with
      | none =>
        have := h (some rb) (List.mem_cons_self _ _) rb rfl
        rw [hb] at this
        exact absurd this (by simp)
      | some t =>
        simp only [checkTargets]
        rw [hb, ih hr]
        simp [cleanRaw, List.filterMap_cons, hb]

theorem routeStep_ability_unknown (st : DState) (b : Bonus) (a : String)
    (h1 : b.target = ("ability.") ++ a) (h2 : abMem a = false) : routeStep st b = st := by
  rw [routeStep_ability st b a h1, if_neg (by simp [h2])]

theorem foldl_middle_drop (base : Base) (pre post : List Bonus) (b : Bonus)
    (h : ∀ st : DState, routeStep st b = st) :
    deriveCharacterStats base (pre ++ b :: post) = deriveCharacterStats base (pre ++ post) := by
  have hf : (pre ++ b :: post).foldl routeStep initState =
      (pre ++ post).foldl routeStep initState := by
    rw [List.foldl_append, List.foldl_append, List.foldl_cons, h]
  unfold deriveCharacterStats
  rw [hf]

theorem normalize_label (rb : Option RawVal) (s : SourceRec) (b : Bonus)
    (hs : s.label.isSome = true) (h : normalizeBonus rb (some s) = some b) :
    b.source.label.isSome = true := by
  cases rb with
  | none => exact absurd h (by simp [normalizeBonus])
  | some rv =>
    cases rv with
    | nonObject => exact absurd h (by simp [normalizeBonus])
    | obj t v bt bs =>
      cases t with
      | str tgt =>
        cases v with
        | num n =>
          simp only [normalizeBonus] at h
          obtain rfl : _ = b := by injection h
          exact hs
        | missing => exact absurd h (by simp [normalizeBonus])
        | str s2 => exact absurd h (by simp [normalizeBonus])
        | other => exact absurd h (by simp [normalizeBonus])
      | missing => exact absurd h (by simp [normalizeBonus])
      | num n => exact absurd h (by simp [normalizeBonus])
      | other => exact absurd h (by simp [normalizeBonus])

theorem entrySource_label (e : Entry) (stype : String) :
    (entrySource e stype).label.isSome = true := by
  rfl

theorem entryBonuses_label (e : Entry) (stype : String) (base : List (String × Int)) :
    ∀ b ∈ entryBonuses e stype base, b.source.label.isSome = true := by
  intro b hb
  unfold entryBonuses at hb
  rw [List.mem_append] at hb
  rcases hb with hb | hb
  · rcases he : e.bonuses with _ | arr
    · rw [he] at hb
      rcases hbb : e.bonus with _ | rb
      · rw [hbb] at hb
        exact absurd hb (by simp)
      · rw [hbb] at hb
        simp only [Option.mem_toList, Option.mem_def] at hb
        exact normalize_label (some rb) _ b (entrySource_label e stype) hb
    · rw [he] at hb
      rw [List.mem_filterMap] at hb
      obtain ⟨ob, _, hob⟩ := hb
      exact normalize_label ob _ b (entrySource_label e stype) hob
  · rcases he : e.benefits with _ | bl
    · rw [he] at hb
      exact absurd hb (by simp)
    · rw [he] at hb
      rw [List.mem_filterMap] at hb
      obtain ⟨bb, _, hob⟩ := hb
      exact normalize_label _ _ b (entrySource_label e stype) hob

theorem collectFromList_label (l : List (Option Entry)) : ∀ (stype : String)
    (base : List (String × Int)) (b : Bonus), b ∈ collectFromList l stype base →
    b.source.label.isSome = true := by
  induction l with
  | nil =>
    intro stype base b hb
    exact absurd hb (by simp [collectFromList])
  | cons oe r ih =>
    intro stype base b hb
    cases oe with
    | none => exact ih stype base b hb
    | some e =>
      rw [show collectFromList (some e :: r) stype base =
        entryBonuses e stype base ++ collectFromList r stype base from rfl,
        List.mem_append] at hb
      rcases hb with hb | hb
      · exact entryBonuses_label e stype base b hb
      · exact ih stype base b hb

/-! ## Claim theorems -/

/-- C3: the final value of an attribute is the override when one is set and
otherwise the computed value plus the sum of the custom modifier values, and
the displayed ability modifier is recomputed as `floor((final - 10) / 2)` from
the post-override score: overriding a base of 14 (modifier +2) to 18 yields
modifier +4. -/
theorem override_layer_precedence :
    (∀ (o : Int) (mods : List CustomModifier) (v : Int),
      getFinalAbilityScore (some o) mods v = o) ∧
    (∀ (mods : List CustomModifier) (v : Int),
      getFinalAbilityScore none mods v = v + (mods.map (fun m => m.value)).sum) ∧
    (∀ mods : List CustomModifier,
      calculateModifier (getFinalAbilityScore (some 18) mods 14) = 4) ∧
    (calculateModifier 14 = 2) ∧
    (calculateModifier 18 = 4) :=
  ⟨fun _ _ _ => rfl, fun _ _ => rfl, fun _ => rfl, by decide, by decide⟩

/-- C5 counterexample: `charisma_modifier_tripled` lies outside the two claimed
reference grammars (its suffix is neither `doubled` nor `halved`), yet
`resolveModifierValue` returns the plain charisma modifier 3, not 0. -/
theorem resolve_unknown_suffix_counterexample :
    resolveModifierValue ("charisma_modifier_tripled") chaBase16 = 3 ∧
    resolveModifierValue ("charisma_modifier_tripled") chaBase16 ≠ 0 :=
  ⟨by decide, by decide⟩

/-- C5 amended: `resolveModifierValue` recognizes the literal
`proficiency_bonus` and the greedy regex `(\w+)_modifier(_(\w+))?`: the
captured word is looked up in the base data (any word, not only the six
abilities, defaulting to 10), suffix `doubled` doubles and `halved`
floor-halves the modifier while any other suffix leaves it unchanged, and
every string matching neither grammar resolves to 0. -/
theorem resolve_modifier_grammar_amended :
    (∀ (s : String) (base : List (String × Int)), jsMatchModifier s = none →
      s ≠ ("proficiency_bonus") → resolveModifierValue s base = 0) ∧
    (resolveModifierValue ("luck_modifier") [(("luck"), 16)] = 3) ∧
    (resolveModifierValue ("charisma_modifier_doubled") chaBase16 = 6) ∧
    (resolveModifierValue ("charisma_modifier_halved") [(("charisma"), 17)] = 1) ∧
    (resolveModifierValue ("charisma_modifier_tripled") chaBase16 = 3) ∧
    (∀ base : List (String × Int), resolveModifierValue ("proficiency_bonus") base =
      jsOrNum (alookup base ("proficiency")) 2) := by
  refine ⟨?_, by decide, by decide, by decide, by decide, fun base => rfl⟩
  intro s base hm hp
  by_cases h0 : s = ("")
  · unfold resolveModifierValue
    rw [if_pos h0]
  · unfold resolveModifierValue
    rw [if_neg h0, if_neg hp, hm]

/-- C5 witness: a concrete string outside both grammars resolves to 0. -/
theorem resolve_modifier_grammar_amended_witness :
    jsMatchModifier ("garbage") = none ∧ ("garbage" : String) ≠ ("proficiency_bonus") ∧
    resolveModifierValue ("garbage") [(("garbage"), 16)] = 0 :=
  ⟨by decide, by decide,
    resolve_modifier_grammar_amended.1 ("garbage") [(("garbage"), 16)] (by decide) (by decide)⟩

/-- C8: each modifier-sourced fan-out handler (skill, ability, save) emits no
bonus entries at all when the referenced modifier resolves to 0 — in
particular when the referenced ability is absent from the base data. -/
theorem zero_value_benefit_suppression :
    (∀ (sl : List String) (bs : String) (base : List (String × Int)) (src : SourceRec),
      resolveModifierValue bs base = 0 →
      convertBenefitToBonus (Benefit.skill_modifier_bonus (some sl) (some bs)) base src = []) ∧
    (∀ (al : List String) (bs : String) (base : List (String × Int)) (src : SourceRec),
      resolveModifierValue bs base = 0 →
      convertBenefitToBonus (Benefit.ability_modifier_bonus (some al) (some bs)) base src = []) ∧
    (∀ (sl : List String) (bs : String) (base : List (String × Int)) (src : SourceRec),
      resolveModifierValue bs base = 0 →
      convertBenefitToBonus (Benefit.save_modifier_bonus (some sl) (some bs)) base src = []) ∧
    (∀ src : SourceRec,
      convertBenefitToBonus (Benefit.skill_modifier_bonus (some [("arcana")])
        (some ("charisma_modifier"))) [] src = []) := by
  refine ⟨?_, ?_, ?_, ?_⟩
  · intro sl bs base src h
    by_cases hbs : bs = ("")
    · simp [convertBenefitToBonus, truthyStr, hbs]
    · simp [convertBenefitToBonus, truthyStr, hbs, h]
  · intro al bs base src h
    by_cases hbs : bs = ("")
    · simp [convertBenefitToBonus, truthyStr, hbs]
    · simp [convertBenefitToBonus, truthyStr, hbs, h]
  · intro sl bs base src h
    by_cases hbs : bs = ("")
    · simp [convertBenefitToBonus, truthyStr, hbs]
    · simp [convertBenefitToBonus, truthyStr, hbs, h]
  · intro src
    have h : resolveModifierValue ("charisma_modifier") [] = 0 := by decide
    simp [convertBenefitToBonus, truthyStr, h]

/-- C8 witness: a skill handler whose source resolves to 0 emits nothing. -/
theorem zero_value_benefit_suppression_witness :
    resolveModifierValue ("wisdom_modifier") [] = 0 ∧
    convertBenefitToBonus (Benefit.skill_modifier_bonus (some [("insight")])
      (some ("wisdom_modifier"))) [] fixSrc = [] :=
  ⟨by decide, zero_value_benefit_suppression.1 [("insight")] ("wisdom_modifier") [] fixSrc
    (by decide)⟩

/-- C10: when the base snapshot has no `proficiency` entry, or it is 0 (both
falsy in JS), `proficiency_bonus` resolves to the fallback 2, so
proficiency-sourced benefits produce value-2 bonuses rather than being
suppressed. -/
theorem proficiency_fallback (base : List (String × Int)) (src : SourceRec)
    (h : alookup base ("proficiency") = none ∨ alookup base ("proficiency") = some 0) :
    resolveModifierValue ("proficiency_bonus") base = 2 ∧
    convertBenefitToBonus (Benefit.skill_modifier_bonus (some [("athletics")])
      (some ("proficiency_bonus"))) base src =
      [{ target := ("skill.athletics"), value := 2, type := ("untyped"), source := src }] := by
  have h2 : resolveModifierValue ("proficiency_bonus") base = 2 := by
    unfold resolveModifierValue
    rw [if_neg (by decide), if_pos rfl]
    rcases h with h | h <;> rw [h] <;> rfl
  refine ⟨h2, ?_⟩
  simp [convertBenefitToBonus, truthyStr, h2]

/-- C10 witness: the empty base snapshot has no proficiency entry and gets the
fallback. -/
theorem proficiency_fallback_witness :
    (alookup ([] : List (String × Int)) ("proficiency") = none ∨
      alookup ([] : List (String × Int)) ("proficiency") = some 0) ∧
    resolveModifierValue ("proficiency_bonus") [] = 2 ∧
    convertBenefitToBonus (Benefit.skill_modifier_bonus (some [("athletics")])
      (some ("proficiency_bonus"))) [] fixSrc =
      [{ target := ("skill.athletics"), value := 2, type := ("untyped"), source := fixSrc }] :=
  ⟨Or.inl (by decide), (proficiency_fallback [] fixSrc (Or.inl (by decide))).1,
    (proficiency_fallback [] fixSrc (Or.inl (by decide))).2⟩

/-- C4: the "Scholar of Yore" end-to-end scenario — collection yields exactly
two value-3 bonuses labelled by the feature, derivation puts 3 under
`totals.skills.religion` and `totals.skills.history` with one source entry
apiece, and the value is computed from the base charisma even when another
feature raises derived charisma. -/
theorem scholar_of_yore_end_to_end :
    collectBonuses [] [some scholarEntry] chaBase16 [] =
      [{ target := ("skill.religion"), value := 3, type := ("untyped"),
         source := { stype := some ("feature"), id := none, label := some ("Scholar of Yore") } },
       { target := ("skill.history"), value := 3, type := ("untyped"),
         source := { stype := some ("feature"), id := none,
                     label := some ("Scholar of Yore") } }] ∧
    alookup (deriveCharacterStats fixBase
      (collectBonuses [] [some scholarEntry] chaBase16 [])).totals.skills ("religion") =
      some 3 ∧
    alookup (deriveCharacterStats fixBase
      (collectBonuses [] [some scholarEntry] chaBase16 [])).totals.skills ("history") =
      some 3 ∧
    (alookup (deriveCharacterStats fixBase
      (collectBonuses [] [some scholarEntry] chaBase16 [])).sources.skills ("religion")).map
      List.length = some 1 ∧
    (alookup (deriveCharacterStats fixBase
      (collectBonuses [] [some scholarEntry] chaBase16 [])).sources.skills ("history")).map
      List.length = some 1 ∧
    ((collectBonuses [] [some scholarEntry, some chaBoostEntry] chaBase16 []).filter
      (fun b => strStartsWith b.target ("skill."))).map (fun b => b.value) = [3, 3] ∧
    alookup (deriveCharacterStats fixBase
      (collectBonuses [] [some scholarEntry, some chaBoostEntry] chaBase16 [])).totals.skills
      ("religion") = some 3 := by
  decide

/-- C6 counterexample: a non-null bonus without a string target makes
`deriveCharacterStats` throw (`bonus.target.startsWith` on `undefined`), so
the function is not total over all inputs. -/
theorem derive_throws_on_missing_target :
    deriveCharacterStatsChecked fixBase
      [some { target := none, value := 5, rtype := ("untyped"), rsource := fixSrc }] =
      Except.error () := by
  rfl

/-- C6 amended: `deriveCharacterStats` never throws on bonus lists whose
non-null entries all carry a string target (null entries are skipped), and a
bonus whose target matches no routing pattern is dropped without any effect on
the output. -/
theorem derive_total_amended :
    (∀ (base : Base) (raw : List (Option RawDB)),
      (∀ orb ∈ raw, ∀ rb : RawDB, orb = some rb → rb.target.isSome = true) →
      deriveCharacterStatsChecked base raw =
        Except.ok (deriveCharacterStats base (cleanRaw raw))) ∧
    (∀ (base : Base) (pre post : List Bonus) (b : Bonus),
      parseTarget b.target = TRoute.unmatched →
      deriveCharacterStats base (pre ++ b :: post) = deriveCharacterStats base (pre ++ post)) := by
  constructor
  · intro base raw h
    unfold deriveCharacterStatsChecked
    rw [checkTargets_ok raw h]
  · intro base pre post b h
    exact foldl_middle_drop base pre post b (fun st => routeStep_unmatched st b h)

/-- C6 witness: a list with a null entry and a well-formed entry derives
without throwing, and an unroutable target is dropped. -/
theorem derive_total_amended_witness :
    (∀ orb ∈ ([none,
        some { target := some ("ac"), value := 2, rtype := ("untyped"), rsource := fixSrc }] :
        List (Option RawDB)),
      ∀ rb : RawDB, orb = some rb → rb.target.isSome = true) ∧
    deriveCharacterStatsChecked fixBase
      [none,
        some { target := some ("ac"), value := 2, rtype := ("untyped"), rsource := fixSrc }] =
      Except.ok (deriveCharacterStats fixBase (cleanRaw
        [none,
          some { target := some ("ac"), value := 2, rtype := ("untyped"), rsource := fixSrc }])) ∧
    deriveCharacterStats fixBase
      ([] ++ { target := ("wibble"), value := 9, type := ("untyped"), source := fixSrc } :: []) =
      deriveCharacterStats fixBase ([] ++ []) :=
  ⟨by decide,
    derive_total_amended.1 fixBase _ (by decide),
    derive_total_amended.2 fixBase [] [] _ (by decide)⟩

/-- C7 counterexample: `normalizeBonus` accepts an empty target (which is
neither non-empty nor of any recognized dotted-path shape) and passes a
label-less raw source through, so the claimed Bonus invariants fail. -/
theorem normalize_shape_counterexample :
    normalizeBonus (some (RawVal.obj (FieldVal.str ("")) (FieldVal.num 1) none
      (some { stype := none, id := none, label := none }))) none =
      some { target := (""), value := 1, type := ("untyped"),
             source := { stype := none, id := none, label := none } } ∧
    (normalizeBonus (some (RawVal.obj (FieldVal.str ("")) (FieldVal.num 1) none
      (some { stype := none, id := none, label := none }))) none).map
      (fun b => b.source.label) = some none := by
  constructor
  · rfl
  · rfl

/-- C7 amended: `normalizeBonus` rejects (returns null for) non-objects,
non-string targets and non-numeric values; on success it copies `target` and
`value` verbatim (with no shape or non-emptiness check), defaults `type` to
`untyped` for an absent or empty raw type, and resolves the source as
explicit argument, then raw source, then `{label: Unknown}` — so the label is
`Unknown` only when both are absent, while every bonus collected by
`collectBonuses` always carries a present source label. -/
theorem normalize_shape_amended :
    (∀ src : Option SourceRec, normalizeBonus none src = none) ∧
    (∀ src : Option SourceRec, normalizeBonus (some RawVal.nonObject) src = none) ∧
    (∀ (v : FieldVal) (bt : Option String) (bs : Option SourceRec) (src : Option SourceRec),
      normalizeBonus (some (RawVal.obj FieldVal.missing v bt bs)) src = none ∧
      normalizeBonus (some (RawVal.obj FieldVal.other v bt bs)) src = none) ∧
    (∀ (n : Int) (v : FieldVal) (bt : Option String) (bs : Option SourceRec)
      (src : Option SourceRec),
      normalizeBonus (some (RawVal.obj (FieldVal.num n) v bt bs)) src = none) ∧
    (∀ (t : String) (bt : Option String) (bs : Option SourceRec) (src : Option SourceRec),
      normalizeBonus (some (RawVal.obj (FieldVal.str t) FieldVal.missing bt bs)) src = none ∧
      normalizeBonus (some (RawVal.obj (FieldVal.str t) FieldVal.other bt bs)) src = none) ∧
    (∀ (t s2 : String) (bt : Option String) (bs : Option SourceRec) (src : Option SourceRec),
      normalizeBonus (some (RawVal.obj (FieldVal.str t) (FieldVal.str s2) bt bs)) src = none) ∧
    (∀ (t : String) (n : Int) (bt : Option String) (bs : Option SourceRec)
      (src : Option SourceRec),
      normalizeBonus (some (RawVal.obj (FieldVal.str t) (FieldVal.num n) bt bs)) src =
        some { target := t, value := n, type := jsOrStr bt ("untyped"),
               source := src.getD (bs.getD
                 { stype := none, id := none, label := some ("Unknown") }) }) ∧
    (∀ (items features : List (Option Entry)) (base : List (String × Int))
      (ovs : List (Option RawVal)),
      (collectBonuses items features base ovs).all
        (fun b => b.source.label.isSome) = true) := by
  refine ⟨fun _ => rfl, fun _ => rfl, fun _ _ _ _ => ⟨rfl, rfl⟩, fun _ _ _ _ _ => rfl,
    fun _ _ _ _ => ⟨rfl, rfl⟩, fun _ _ _ _ _ => rfl, ?_, ?_⟩
  · intro t n bt bs src
    cases src with
    | some s => rfl
    | none =>
      cases bs with
      | some s => rfl
      | none => rfl
  · intro items features base ovs
    rw [List.all_eq_true]
    intro b hb
    unfold collectBonuses at hb
    rw [List.mem_append] at hb
    rcases hb with hb | hb
    · rw [List.mem_append] at hb
      rcases hb with hb | hb
      · exact collectFromList_label items ("item") base b hb
      · exact collectFromList_label features ("feature") base b hb
    · rw [List.mem_filterMap] at hb
      obtain ⟨ob, _, hob⟩ := hb
      exact normalize_label ob overrideSource b rfl hob

/-- A bonus whose target is exactly `speed.` (empty, falsy type after
lower-casing) is dropped by the routing chain. -/
theorem routeStep_speed_empty (st : DState) (b : Bonus) (h : b.target = ("speed.")) :
    routeStep st b = st := by
  obtain ⟨tgt, v, ty, src⟩ := b
  cases h
  rfl

/-- A bonus whose target is exactly `sense.` is likewise dropped. -/
theorem routeStep_sense_empty (st : DState) (b : Bonus) (h : b.target = ("sense.")) :
    routeStep st b = st := by
  obtain ⟨tgt, v, ty, src⟩ := b
  cases h
  rfl

/-- C9 counterexample: a bonus with the unknown skill name `zzz` is not
dropped — it creates the `zzz` bucket with its full value and appears in that
bucket's source list. -/
theorem unknown_skill_name_not_dropped :
    alookup (deriveCharacterStats fixBase
      [{ target := ("skill.zzz"), value := 5, type := ("untyped"), source := fixSrc }]
      ).totals.skills ("zzz") = some 5 ∧
    (alookup (deriveCharacterStats fixBase
      [{ target := ("skill.zzz"), value := 5, type := ("untyped"), source := fixSrc }]
      ).sources.skills ("zzz")).map List.length = some 1 := by
  decide

/-- C9 amended: only ability targets are checked against a known-name list —
an `ability.<a>` bonus with `a` outside the six recognized abilities leaves
the entire derivation output unchanged, as do the empty-name targets `speed.`
and `sense.`; skill (and save) buckets accept arbitrary names, crediting the
bonus value to the named bucket. -/
theorem unknown_name_drop_amended :
    (∀ (base : Base) (pre post : List Bonus) (b : Bonus) (a : String),
      b.target = ("ability.") ++ a → abMem a = false →
      deriveCharacterStats base (pre ++ b :: post) = deriveCharacterStats base (pre ++ post)) ∧
    (∀ (base : Base) (pre post : List Bonus) (b : Bonus),
      b.target = ("speed.") → deriveCharacterStats base (pre ++ b :: post) =
        deriveCharacterStats base (pre ++ post)) ∧
    (∀ (base : Base) (pre post : List Bonus) (b : Bonus),
      b.target = ("sense.") → deriveCharacterStats base (pre ++ b :: post) =
        deriveCharacterStats base (pre ++ post)) ∧
    (∀ (base : Base) (k : String) (v : Int) (ty2 : String) (src : SourceRec),
      alookupD (deriveCharacterStats base
        [{ target := ("skill.") ++ k, value := v, type := ty2, source := src }]
        ).totals.skills k 0 = v) := by
  refine ⟨?_, ?_, ?_, ?_⟩
  · intro base pre post b a h1 h2
    exact foldl_middle_drop base pre post b
      (fun st => routeStep_ability_unknown st b a h1 h2)
  · intro base pre post b h
    exact foldl_middle_drop base pre post b (fun st => routeStep_speed_empty st b h)
  · intro base pre post b h
    exact foldl_middle_drop base pre post b (fun st => routeStep_sense_empty st b h)
  · intro base k v ty2 src
    have h := rt_skills initState
      { target := ("skill.") ++ k, value := v, type := ty2, source := src } k
    rw [parseTarget_skill k] at h
    rw [if_pos rfl] at h
    show alookupD (routeStep initState
      { target := ("skill.") ++ k, value := v, type := ty2, source := src }
      ).totals.skills k 0 = v
    rw [h]
    simp [initState, alookupD, alookup]

/-- C9 witness: an `ability.luck` bonus changes nothing in the derivation. -/
theorem unknown_name_drop_amended_witness :
    (({ target := ("ability.luck"), value := 3, type := ("untyped"), source := fixSrc } :
        Bonus).target = ("ability.") ++ ("luck")) ∧
    abMem ("luck") = false ∧
    deriveCharacterStats fixBase
      ([] ++ { target := ("ability.luck"), value := 3, type := ("untyped"), source := fixSrc }
        :: []) =
      deriveCharacterStats fixBase ([] ++ []) :=
  ⟨rfl, by decide, unknown_name_drop_amended.1 fixBase [] [] _ ("luck") rfl (by decide)⟩

/-- C1: every sum bucket (the six abilities, maxHP, ac, initiative,
passivePerception, every skill, save and speed bucket) of
`deriveCharacterStats` is the arithmetic sum of the values of the bonuses
whose target addresses that bucket (negative values included; speed types are
matched after lower-casing and the empty speed type has no bucket), and each
derived value is the corresponding base value plus that bucket total. -/
theorem sum_buckets_additive (base : Base) (bonuses : List Bonus) :
    ((deriveCharacterStats base bonuses).totals.maxHP =
      sumVals (bonuses.filter (fun b => decide (b.target = ("maxHP"))))) ∧
    ((deriveCharacterStats base bonuses).totals.ac =
      sumVals (bonuses.filter (fun b => decide (b.target = ("ac"))))) ∧
    ((deriveCharacterStats base bonuses).totals.initiative =
      sumVals (bonuses.filter (fun b => decide (b.target = ("initiative"))))) ∧
    ((deriveCharacterStats base bonuses).totals.passivePerception =
      sumVals (bonuses.filter (fun b => decide (b.target = ("passivePerception"))))) ∧
    ((deriveCharacterStats base bonuses).totals.abilities.strength =
      sumVals (bonuses.filter (fun b => decide (b.target = ("ability.strength"))))) ∧
    ((deriveCharacterStats base bonuses).totals.abilities.dexterity =
      sumVals (bonuses.filter (fun b => decide (b.target = ("ability.dexterity"))))) ∧
    ((deriveCharacterStats base bonuses).totals.abilities.constitution =
      sumVals (bonuses.filter (fun b => decide (b.target = ("ability.constitution"))))) ∧
    ((deriveCharacterStats base bonuses).totals.abilities.intelligence =
      sumVals (bonuses.filter (fun b => decide (b.target = ("ability.intelligence"))))) ∧
    ((deriveCharacterStats base bonuses).totals.abilities.wisdom =
      sumVals (bonuses.filter (fun b => decide (b.target = ("ability.wisdom"))))) ∧
    ((deriveCharacterStats base bonuses).totals.abilities.charisma =
      sumVals (bonuses.filter (fun b => decide (b.target = ("ability.charisma"))))) ∧
    (∀ k : String, alookupD (deriveCharacterStats base bonuses).totals.skills k 0 =
      sumVals (bonuses.filter (fun b => decide (b.target = ("skill.") ++ k)))) ∧
    (∀ k : String, alookupD (deriveCharacterStats base bonuses).totals.saves k 0 =
      sumVals (bonuses.filter (fun b => decide (b.target = ("save.") ++ k)))) ∧
    (∀ ty : String, alookupD (deriveCharacterStats base bonuses).totals.speeds ty 0 =
      (if ty = "" then 0 else sumVals (bonuses.filter (fun b => speedMatchB b ty)))) ∧
    ((deriveCharacterStats base bonuses).derived.maxHP =
      base.maxHP + (deriveCharacterStats base bonuses).totals.maxHP) ∧
    ((deriveCharacterStats base bonuses).derived.ac =
      base.acBase + (deriveCharacterStats base bonuses).totals.ac) ∧
    ((deriveCharacterStats base bonuses).derived.initiative =
      base.initiativeBase + (deriveCharacterStats base bonuses).totals.initiative) ∧
    ((deriveCharacterStats base bonuses).derived.passivePerception =
      base.passivePerceptionBase +
        (deriveCharacterStats base bonuses).totals.passivePerception) ∧
    ((deriveCharacterStats base bonuses).derived.abilities.strength =
      base.abilities.strength + (deriveCharacterStats base bonuses).totals.abilities.strength) ∧
    ((deriveCharacterStats base bonuses).derived.abilities.dexterity =
      base.abilities.dexterity +
        (deriveCharacterStats base bonuses).totals.abilities.dexterity) ∧
    ((deriveCharacterStats base bonuses).derived.abilities.constitution =
      base.abilities.constitution +
        (deriveCharacterStats base bonuses).totals.abilities.constitution) ∧
    ((deriveCharacterStats base bonuses).derived.abilities.intelligence =
      base.abilities.intelligence +
        (deriveCharacterStats base bonuses).totals.abilities.intelligence) ∧
    ((deriveCharacterStats base bonuses).derived.abilities.wisdom =
      base.abilities.wisdom + (deriveCharacterStats base bonuses).totals.abilities.wisdom) ∧
    ((deriveCharacterStats base bonuses).derived.abilities.charisma =
      base.abilities.charisma + (deriveCharacterStats base bonuses).totals.abilities.charisma) ∧
    (∀ ty : String, alookupD (deriveCharacterStats base bonuses).derived.speeds ty 0 =
      alookupD base.speeds ty 0 +
        alookupD (deriveCharacterStats base bonuses).totals.speeds ty 0) := by
  refine ⟨?_, ?_, ?_, ?_, ?_, ?_, ?_, ?_, ?_, ?_, ?_, ?_, ?_,
    rfl, rfl, rfl, rfl, rfl, rfl, rfl, rfl, rfl, rfl, ?_⟩
  · show (bonuses.foldl routeStep initState).totals.maxHP = _
    rw [fold_maxHP]
    simp [initState]
  · show (bonuses.foldl routeStep initState).totals.ac = _
    rw [fold_ac]
    simp [initState]
  · show (bonuses.foldl routeStep initState).totals.initiative = _
    rw [fold_initiative]
    simp [initState]
  · show (bonuses.foldl routeStep initState).totals.passivePerception = _
    rw [fold_pp]
    simp [initState]
  · show (bonuses.foldl routeStep initState).totals.abilities.strength = _
    rw [fold_str]
    simp [initState, abZero]
  · show (bonuses.foldl routeStep initState).totals.abilities.dexterity = _
    rw [fold_dex]
    simp [initState, abZero]
  · show (bonuses.foldl routeStep initState).totals.abilities.constitution = _
    rw [fold_con]
    simp [initState, abZero]
  · show (bonuses.foldl routeStep initState).totals.abilities.intelligence = _
    rw [fold_int]
    simp [initState, abZero]
  · show (bonuses.foldl routeStep initState).totals.abilities.wisdom = _
    rw [fold_wis]
    simp [initState, abZero]
  · show (bonuses.foldl routeStep initState).totals.abilities.charisma = _
    rw [fold_cha]
    simp [initState, abZero]
  · intro k
    show alookupD (bonuses.foldl routeStep initState).totals.skills k 0 = _
    rw [fold_skills]
    simp [initState, alookupD, alookup]
  · intro k
    show alookupD (bonuses.foldl routeStep initState).totals.saves k 0 = _
    rw [fold_saves]
    simp [initState, alookupD, alookup]
  · intro ty
    show alookupD (bonuses.foldl routeStep initState).totals.speeds ty 0 = _
    rw [fold_speeds]
    simp [initState, alookupD, alookup]
  · intro ty
    have hnd := (fold_nodup bonuses initState).1 (by simp [initState, akeys])
    exact alookupD_speedfold ((bonuses.foldl routeStep initState).totals.speeds)
      base.speeds ty hnd

/-- C2 amended: the sense bucket total is the max-merge of the matching bonus
values starting from 0 (so a lone negative bonus yields 0, not its value),
and for every type with at least one sense bonus the final derived range is
`max(base range, bucket total)`, present in the output exactly when it is
positive. -/
theorem sense_max_merge_amended (base : Base) (bonuses : List Bonus) (ty : String) :
    (alookup (deriveCharacterStats base bonuses).totals.senses ty =
      (if (bonuses.filter (fun b => senseMatchB b ty)).map (fun b => b.value) = [] then none
       else some (((bonuses.filter (fun b => senseMatchB b ty)).map (fun b => b.value)).foldl
         max 0))) ∧
    ((bonuses.filter (fun b => senseMatchB b ty)).map (fun b => b.value) ≠ [] →
      senseFind (deriveCharacterStats base bonuses).derived.senses ty =
        (if 0 < max (alookupD (toSenseMap base.senses) ty 0)
            (((bonuses.filter (fun b => senseMatchB b ty)).map (fun b => b.value)).foldl max 0)
         then some (max (alookupD (toSenseMap base.senses) ty 0)
            (((bonuses.filter (fun b => senseMatchB b ty)).map (fun b => b.value)).foldl max 0))
         else none)) := by
  have h1 : alookup (deriveCharacterStats base bonuses).totals.senses ty =
      (if (bonuses.filter (fun b => senseMatchB b ty)).map (fun b => b.value) = [] then none
       else some (((bonuses.filter (fun b => senseMatchB b ty)).map (fun b => b.value)).foldl
         max 0)) := by
    show alookup (bonuses.foldl routeStep initState).totals.senses ty = _
    rw [fold_senses]
    by_cases hv : (bonuses.filter (fun b => senseMatchB b ty)).map (fun b => b.value) = []
    · rw [if_pos hv, if_pos hv]
      rfl
    · rw [if_neg hv, if_neg hv]
      rfl
  refine ⟨h1, ?_⟩
  intro hne
  have htot : alookup (deriveCharacterStats base bonuses).totals.senses ty =
      some (((bonuses.filter (fun b => senseMatchB b ty)).map (fun b => b.value)).foldl
        max 0) := by
    rw [h1, if_neg hne]
  have hndts : (akeys (deriveCharacterStats base bonuses).totals.senses).Nodup :=
    (fold_nodup bonuses initState).2 (by simp [initState, akeys])
  have hmerge := alookup_mergefold (toSenseMap base.senses)
    ((deriveCharacterStats base bonuses).totals.senses) (toSenseMap base.senses) ty hndts
  rw [htot] at hmerge
  have hndm : (akeys (mergeSenses (toSenseMap base.senses)
      (deriveCharacterStats base bonuses).totals.senses)).Nodup := by
    unfold mergeSenses
    exact nodup_mergefoldAux (toSenseMap base.senses) _ _ (nodup_toSenseMap base.senses)
  have hfind := senseFind_filter_lookup
    (mergeSenses (toSenseMap base.senses) (deriveCharacterStats base bonuses).totals.senses)
    ty
    (max (alookupD (toSenseMap base.senses) ty 0)
      (((bonuses.filter (fun b => senseMatchB b ty)).map (fun b => b.value)).foldl max 0))
    hndm (by exact hmerge)
  exact hfind

/-- C2 counterexample: a single `sense.darkvision` bonus of -10 produces a
bucket total of 0 (the code max-merges against 0), not the maximum of the
matching bonus values, which is -10. -/
theorem sense_total_negative_counterexample :
    alookup (deriveCharacterStats fixBase
      [{ target := ("sense.darkvision"), value := -10, type := ("untyped"), source := fixSrc }]
      ).totals.senses ("darkvision") = some 0 ∧
    alookup (deriveCharacterStats fixBase
      [{ target := ("sense.darkvision"), value := -10, type := ("untyped"), source := fixSrc }]
      ).totals.senses ("darkvision") ≠ some (-10) := by
  constructor
  · decide
  · decide

/-- C2 witness: with base darkvision 60, a 30 ft sense bonus leaves the final
range at 60 and a 120 ft bonus raises it to 120. -/
theorem sense_max_merge_amended_witness :
    senseFind (deriveCharacterStats darkBase
      [{ target := ("sense.darkvision"), value := 30, type := ("untyped"), source := fixSrc }]
      ).derived.senses ("darkvision") = some 60 ∧
    senseFind (deriveCharacterStats darkBase
      [{ target := ("sense.darkvision"), value := 120, type := ("untyped"), source := fixSrc }]
      ).derived.senses ("darkvision") = some 120 := by
  constructor
  · have h := (sense_max_merge_amended darkBase
      [{ target := ("sense.darkvision"), value := 30, type := ("untyped"), source := fixSrc }]
      ("darkvision")).2 (by decide)
    rw [h]
    decide
  · have h := (sense_max_merge_amended darkBase
      [{ target := ("sense.darkvision"), value := 120, type := ("untyped"), source := fixSrc }]
      ("darkvision")).2 (by decide)
    rw [h]
    decide
